import Mathlib

set_option maxHeartbeats 1000000
set_option maxRecDepth 4000

/- Shallow embedding of src/import.c (the CSV import core of node-sqlite3):
   the buffer routine import_append_char, the field tokenizers
   csv_read_one_field / ascii_read_one_field, and the loader sqlite_import.

   Bytes are modelled as Int, matching the C `int c` returned by fgetc;
   the value -1 plays the role of EOF.  The input stream is a (finite)
   List Int of bytes.  The growable buffer z is a List Int of length
   nAlloc; bytes that the C code never initialised are modelled by the
   junk value 256 (a value fgetc can never produce, so the code can
   never confuse it with data).  Diagnostics printed to stderr are
   accumulated in a list, each recording the line number the message
   interpolates and the kind of message. -/

inductive DiagKind where
  | unescapedQuote
  | unterminatedQuote
  | shortRow (expected found : Nat)
  | longRow (expected found : Nat)
  | insertFailed
deriving DecidableEq, Repr

structure Diag where
  line : Int
  kind : DiagKind
deriving DecidableEq, Repr

/- ImportCtx, src/import.c lines 103-114, plus the input stream standing
   for the FILE*, the process-wide seenInterrupt flag, and the diagnostic
   log standing for stderr. -/
structure ImportCtx where
  input : List Int
  z : List Int
  n : Nat
  nAlloc : Nat
  nLine : Int
  cTerm : Int
  cColSep : Int
  cRowSep : Int
  seenInterrupt : Bool
  diags : List Diag
deriving DecidableEq, Repr

def addDiag (p : ImportCtx) (line : Int) (k : DiagKind) : ImportCtx :=
  { p with diags := p.diags ++ [⟨line, k⟩] }

/- import_append_char, lines 117-127.  Growth: nAlloc += nAlloc + 100,
   realloc preserves the old contents and leaves the extension
   uninitialised (junk value 256 here); then z[n++] = c.
   The out-of-memory abort is not modelled: allocation always succeeds. -/
def import_append_char (p : ImportCtx) (c : Int) : ImportCtx :=
  if p.n + 1 ≥ p.nAlloc then
    { p with nAlloc := p.nAlloc + p.nAlloc + 100,
             z := (p.z ++ List.replicate (p.nAlloc + 100) 256).set p.n c,
             n := p.n + 1 }
  else
    { p with z := p.z.set p.n c, n := p.n + 1 }

/- The backtracking loop `do{ p->n--; }while( p->z[p->n]!=cQuote );`
   of line 171: starting from n, decrement once, then keep decrementing
   while the byte under n is not the quote. -/
def backtrackToQuote (z : List Int) (q : Int) : Nat → Nat
  | 0 => 0
  | n + 1 => if z.getD n 256 = q then n else backtrackToQuote z q n

/- The C string the caller sees in the returned char* z: bytes up to the
   first NUL.  sqlite3_bind_text(..., -1, ...) reads exactly this. -/
def cstr (z : List Int) : List Int := z.takeWhile (fun b => b != 0)

/- The quoted-field scanning loop of csv_read_one_field, lines 156-188.
   sl is the captured startLine, pc/ppc the previous and the
   previous-previous character, and the list argument is the remaining
   input stream (kept in sync with p.input).  cQuote is the literal '"'
   (34), as in the source, where cQuote = c = '"'. -/
def csvQuotedGo (sl : Int) : Int → Int → List Int → ImportCtx → ImportCtx
  | pc, ppc, [], p =>
      -- c = fgetc = EOF (-1)
      let p2 := if (-1 : Int) = p.cRowSep then { p with nLine := p.nLine + 1 } else p
      -- (the doubled-quote `continue` needs c == '"', impossible at EOF)
      if ((-1 : Int) = p2.cColSep ∧ pc = 34) ∨ ((-1 : Int) = p2.cRowSep ∧ pc = 34)
          ∨ ((-1 : Int) = p2.cRowSep ∧ pc = 13 ∧ ppc = 34) ∨ pc = 34 then
        { p2 with n := backtrackToQuote p2.z 34 p2.n, cTerm := -1 }
      else
        let p3 := if pc = 34 ∧ ((-1 : Int) ≠ 13) then addDiag p2 p2.nLine .unescapedQuote else p2
        { (addDiag p3 sl .unterminatedQuote) with cTerm := -1 }
  | pc, ppc, c :: rest, p =>
      let p1 := { p with input := rest }
      let p2 := if c = p1.cRowSep then { p1 with nLine := p1.nLine + 1 } else p1
      if c = 34 ∧ pc = 34 then
        csvQuotedGo sl 0 ppc rest p2
      else if (c = p2.cColSep ∧ pc = 34) ∨ (c = p2.cRowSep ∧ pc = 34)
          ∨ (c = p2.cRowSep ∧ pc = 13 ∧ ppc = 34) ∨ (c = -1 ∧ pc = 34) then
        { p2 with n := backtrackToQuote p2.z 34 p2.n, cTerm := c }
      else
        let p3 := if pc = 34 ∧ c ≠ 13 then addDiag p2 p2.nLine .unescapedQuote else p2
        if c = -1 then { (addDiag p3 sl .unterminatedQuote) with cTerm := -1 }
        else csvQuotedGo sl c pc rest (import_append_char p3 c)

/- Exit of the unquoted scanning loop, lines 194-198: on a row separator
   bump the line counter and strip one trailing bare carriage return,
   then record the terminator. -/
def csvUnquotedFinish (c : Int) (p : ImportCtx) : ImportCtx :=
  let p1 :=
    if c = p.cRowSep then
      let pa := { p with nLine := p.nLine + 1 }
      if 0 < pa.n ∧ pa.z.getD (pa.n - 1) 256 = 13 then { pa with n := pa.n - 1 } else pa
    else p
  { p1 with cTerm := c }

/- The unquoted scanning loop, lines 190-193: while the current char is
   none of EOF / column separator / row separator, append it and fetch
   the next char. -/
def csvUnquotedGo : Int → List Int → ImportCtx → ImportCtx
  | c, [], p =>
      if c = -1 ∨ c = p.cColSep ∨ c = p.cRowSep then csvUnquotedFinish c p
      else csvUnquotedFinish (-1) (import_append_char p c)
  | c, b :: rest, p =>
      if c = -1 ∨ c = p.cColSep ∨ c = p.cRowSep then csvUnquotedFinish c p
      else csvUnquotedGo b rest (import_append_char { p with input := rest } c)

/- csv_read_one_field, lines 142-202.  Returns the char* result: none for
   a NULL pointer (EOF/interrupt hit before any byte, or a buffer that
   was never allocated), some (cstr z) otherwise. -/
def csv_read_one_field (p0 : ImportCtx) : Option (List Int) × ImportCtx :=
  let p := { p0 with n := 0 }
  match p.input with
  | [] => (none, { p with cTerm := -1 })
  | c :: rest =>
      let p1 := { p with input := rest }
      if c = -1 ∨ p1.seenInterrupt then (none, { p1 with cTerm := -1 })
      else
        let p2 := if c = 34 then csvQuotedGo p1.nLine 0 0 rest p1 else csvUnquotedGo c rest p1
        let p3 := if p2.nAlloc ≠ 0 then { p2 with z := p2.z.set p2.n 0 } else p2
        (if p3.nAlloc ≠ 0 then some (cstr p3.z) else none, p3)

/- Exit of the ASCII scanning loop, lines 230-233: no CR stripping. -/
def asciiFinish (c : Int) (p : ImportCtx) : ImportCtx :=
  let p1 := if c = p.cRowSep then { p with nLine := p.nLine + 1 } else p
  { p1 with cTerm := c }

/- The ASCII scanning loop, lines 226-229. -/
def asciiGo : Int → List Int → ImportCtx → ImportCtx
  | c, [], p =>
      if c = -1 ∨ c = p.cColSep ∨ c = p.cRowSep then asciiFinish c p
      else asciiFinish (-1) (import_append_char p c)
  | c, b :: rest, p =>
      if c = -1 ∨ c = p.cColSep ∨ c = p.cRowSep then asciiFinish c p
      else asciiGo b rest (import_append_char { p with input := rest } c)

/- ascii_read_one_field, lines 216-236. -/
def ascii_read_one_field (p0 : ImportCtx) : Option (List Int) × ImportCtx :=
  let p := { p0 with n := 0 }
  match p.input with
  | [] => (none, { p with cTerm := -1 })
  | c :: rest =>
      let p1 := { p with input := rest }
      if c = -1 ∨ p1.seenInterrupt then (none, { p1 with cTerm := -1 })
      else
        let p2 := asciiGo c rest p1
        let p3 := if p2.nAlloc ≠ 0 then { p2 with z := p2.z.set p2.n 0 } else p2
        (if p3.nAlloc ≠ 0 then some (cstr p3.z) else none, p3)

/- The xRead function pointer of sqlite_import, lines 250 and 302-306. -/
inductive ReadFn where
  | csv
  | ascii
deriving DecidableEq, Repr

def readOneField : ReadFn → ImportCtx → Option (List Int) × ImportCtx
  | .csv, p => csv_read_one_field p
  | .ascii, p => ascii_read_one_field p

/- ---------- sqlite_import (lines 238-433) ---------- -/

def MODE_Csv : Nat := 7
def MODE_Ascii : Nat := 9

def SEP_Comma : String := ","
def SEP_CrLf : String := "\r\n"
def SEP_Row : String := "\n"

/- strlen30, lines 47-51 (the separators here are tiny, so the mask is
   inert, but it is kept for fidelity). -/
def strlen30 (s : String) : Nat := s.length &&& 0x3fffffff

structure ShellState where
  mode : Nat
  colSeparator : String
  rowSeparator : String
deriving DecidableEq, Repr

/- Lines 253-255: sqlite_import hardcodes CSV mode with "," and CRLF. -/
def importShellState : ShellState :=
  { mode := MODE_Csv, colSeparator := SEP_Comma, rowSeparator := SEP_CrLf }

/- p->colSeparator[0] read as an int. -/
def firstByte (s : String) : Int :=
  match s.data with
  | [] => 0
  | c :: _ => (c.toNat : Int)

/- The separator validation and CRLF normalization, lines 258-286.
   On success returns the (possibly normalized) ShellState together with
   sCtx.cColSep and sCtx.cRowSep (lines 311-312). -/
def setupSeparators (p : ShellState) : Except String (ShellState × Int × Int) :=
  let nSep := strlen30 p.colSeparator
  if nSep = 0 then .error "non-null column separator required for import"
  else if nSep > 1 then .error "multi-character column separators not allowed for import"
  else
    let nSep2 := strlen30 p.rowSeparator
    if nSep2 = 0 then .error "non-null row separator required for import"
    else
      let p2 :=
        if nSep2 = 2 ∧ p.mode = MODE_Csv ∧ p.rowSeparator = SEP_CrLf then
          { p with rowSeparator := SEP_Row }
        else p
      let nSep3 := strlen30 p2.rowSeparator
      if nSep3 > 1 then .error "multi-character row separators not allowed for import"
      else .ok (p2, firstByte p2.colSeparator, firstByte p2.rowSeparator)

/- Line 302-306: xRead dispatch. -/
def xReadFor (mode : Nat) : ReadFn := if mode = MODE_Ascii then .ascii else .csv

/- The header-row loop of the CREATE TABLE branch, lines 325-329:
   while( xRead(&sCtx) ){ add a column named sCtx.z; if cTerm != cColSep break }.
   Each iteration that recurses read a field returning a non-NULL
   pointer, which consumes at least one input byte, so input.length + 1
   fuel always suffices (the fuel-exhausted base case is unreachable). -/
def headerGo (fn : ReadFn) : Nat → ImportCtx → List (List Int) → ImportCtx × List (List Int)
  | 0, ctx, cols => (ctx, cols)
  | fuel + 1, ctx, cols =>
      let r := readOneField fn ctx
      match r.1 with
      | none => (r.2, cols)
      | some v =>
          let cols2 := cols ++ [v]
          if r.2.cTerm ≠ r.2.cColSep then (r.2, cols2) else headerGo fn fuel r.2 cols2

def headerLoop (fn : ReadFn) (ctx : ImportCtx) : ImportCtx × List (List Int) :=
  headerGo fn (ctx.input.length + 1) ctx []

/- bind_null filling, lines 404-405: i += 2; while( i<=nCol ) bind_null(i++).
   bindNullGo j cnt stmt runs the while loop from 1-based index j for cnt
   iterations (cnt = nCol+1-j at the call site). -/
def bindNullGo : Nat → Nat → List (Option (List Int)) → List (Option (List Int))
  | _, 0, stmt => stmt
  | j, cnt + 1, stmt => bindNullGo (j + 1) cnt (stmt.set (j - 1) none)

/- The loader state: reader context, the insert statement's current
   bindings (slot i+1 at list index i; none is SQL NULL; a fresh
   statement has every parameter NULL), and the rows for which
   sqlite3_step was executed. -/
structure LoadState where
  ctx : ImportCtx
  stmt : List (Option (List Int))
  inserted : List (List (Option (List Int)))
deriving DecidableEq, Repr

/- The per-row for loop, lines 386-407.  rem counts the remaining
   iterations (rem = nCol - i at every call), so the recursion is
   structural; the returned Nat is the C variable i after the loop. -/
def forPhaseGo (fn : ReadFn) (mode nCol : Nat) (startLine : Int) :
    Nat → Nat → LoadState → LoadState × Nat
  | 0, i, st => (st, i)
  | rem + 1, i, st =>
      let r := readOneField fn st.ctx
      let z := r.1
      let ctx := r.2
      if z = none ∧ i = 0 then ({ st with ctx := ctx }, i)
      else if mode = MODE_Ascii ∧ (z = none ∨ z = some []) ∧ i = 0 then
        ({ st with ctx := ctx }, i)
      else
        let st1 := { st with ctx := ctx, stmt := st.stmt.set i z }
        if i < nCol - 1 ∧ ctx.cTerm ≠ ctx.cColSep then
          let st2 := { st1 with ctx := addDiag st1.ctx startLine (.shortRow nCol (i + 1)) }
          ({ st2 with stmt := bindNullGo (i + 2) (nCol + 1 - (i + 2)) st2.stmt }, nCol + 2)
        else
          forPhaseGo fn mode nCol startLine rem (i + 1) st1

/- The extras-drain loop, lines 409-412: do{ xRead; i++; }while( cTerm==cColSep ).
   A continuing iteration's read ends on the column separator, hence
   consumed at least one byte, so input.length + 1 fuel always suffices. -/
def drainGo (fn : ReadFn) : Nat → ImportCtx → Nat → ImportCtx × Nat
  | 0, ctx, i => (ctx, i)
  | fuel + 1, ctx, i =>
      let r := readOneField fn ctx
      let ctx2 := r.2
      let i2 := i + 1
      if ctx2.cTerm = ctx2.cColSep then drainGo fn fuel ctx2 i2 else (ctx2, i2)

def drainPhase (fn : ReadFn) (ctx : ImportCtx) (i : Nat) : ImportCtx × Nat :=
  drainGo fn (ctx.input.length + 1) ctx i

/- One iteration of the do-while row loop, lines 384-424.  execOk gives
   the sink's success/failure answer for each executed insert, indexed
   by the number of inserts executed so far. -/
def processOneRow (fn : ReadFn) (mode nCol : Nat) (execOk : Nat → Bool)
    (st : LoadState) : LoadState × Nat :=
  let startLine := st.ctx.nLine
  let fp := forPhaseGo fn mode nCol startLine nCol 0 st
  let st1 := fp.1
  let i1 := fp.2
  let dr :=
    if st1.ctx.cTerm = st1.ctx.cColSep then
      let d := drainPhase fn st1.ctx i1
      ({ st1 with ctx := addDiag d.1 startLine (.longRow nCol d.2) }, d.2)
    else (st1, i1)
  let st2 := dr.1
  let i2 := dr.2
  if i2 ≥ nCol then
    let st3 := { st2 with inserted := st2.inserted ++ [st2.stmt] }
    if execOk st2.inserted.length then (st3, i2)
    else ({ st3 with ctx := addDiag st3.ctx startLine .insertFailed }, i2)
  else (st2, i2)

/- The do-while over rows, line 425: while( sCtx.cTerm != EOF ).  Any
   iteration that continues ended its last field read on a separator,
   which consumed at least one byte, so input.length + 1 fuel always
   suffices when nCol >= 1 (and sqlite_import only reaches the loop with
   nCol >= 1, returning early at line 359 otherwise). -/
def rowLoopGo (fn : ReadFn) (mode nCol : Nat) (execOk : Nat → Bool) :
    Nat → LoadState → LoadState
  | 0, st => st
  | fuel + 1, st =>
      let st3 := (processOneRow fn mode nCol execOk st).1
      if st3.ctx.cTerm ≠ -1 then rowLoopGo fn mode nCol execOk fuel st3 else st3

def rowLoop (fn : ReadFn) (mode nCol : Nat) (execOk : Nat → Bool) (st : LoadState) :
    LoadState :=
  rowLoopGo fn mode nCol execOk (st.ctx.input.length + 1) st

/- Outcome of a sqlite3_prepare_v2 call, classified the way line 322
   classifies it (rc together with the "no such table: *" glob). -/
inductive PrepareResult where
  | ok (nCol : Nat)
  | noSuchTable
  | otherError
deriving DecidableEq, Repr

/- The external collaborators of sqlite_import: the stream open outcome
   and the sink's answers.  execOk n is the sqlite3_reset result for the
   n-th executed insert. -/
structure DbParams where
  openOk : Bool
  selectPrepare : PrepareResult
  createOk : Bool
  reprepare : PrepareResult
  insertPrepareOk : Bool
  autocommit : Bool
  execOk : Nat → Bool

structure ImportResult where
  status : Int
  emsg : Option String
  diags : List Diag
  inserted : List (List (Option (List Int)))
  createRequested : Option (List (List Int))
  nColResolved : Option Nat
  streamOpened : Bool
  streamClosed : Bool
  bufFreed : Bool
  began : Bool
  committed : Bool
deriving DecidableEq, Repr

/- Lines 356-432: from the resolved column count to the end.  nCol = 0
   returns 0 immediately (line 359) with the stream still open and the
   buffer still allocated; insert-prepare failure (lines 376-381) closes
   the stream but does not free the buffer. -/
def importRows (db : DbParams) (fn : ReadFn) (mode nCol : Nat)
    (created : Option (List (List Int))) (ctx : ImportCtx) : ImportResult :=
  if nCol = 0 then
    { status := 0, emsg := none, diags := ctx.diags, inserted := [],
      createRequested := created, nColResolved := some 0,
      streamOpened := true, streamClosed := false, bufFreed := false,
      began := false, committed := false }
  else if ¬ db.insertPrepareOk then
    { status := 1, emsg := some "prepare failed", diags := ctx.diags, inserted := [],
      createRequested := created, nColResolved := some nCol,
      streamOpened := true, streamClosed := true, bufFreed := false,
      began := false, committed := false }
  else
    let began := db.autocommit
    let st := rowLoop fn mode nCol db.execOk
      { ctx := ctx, stmt := List.replicate nCol none, inserted := [] }
    { status := 0, emsg := none, diags := st.ctx.diags, inserted := st.inserted,
      createRequested := created, nColResolved := some nCol,
      streamOpened := true, streamClosed := true, bufFreed := true,
      began := began, committed := began }

/- sqlite_import, lines 238-433.  The input list stands for the opened
   stream's bytes; db carries every answer of the external sink.  The
   two out-of-memory paths (lines 314-318 and 360-365) are not modelled:
   allocation always succeeds. -/
def sqlite_import (db : DbParams) (input : List Int) : ImportResult :=
  match setupSeparators importShellState with
  | .error m =>
      { status := 1, emsg := some m, diags := [], inserted := [],
        createRequested := none, nColResolved := none,
        streamOpened := false, streamClosed := false, bufFreed := false,
        began := false, committed := false }
  | .ok s =>
    let shell := s.1
    let colSep := s.2.1
    let rowSep := s.2.2
    let fn := xReadFor shell.mode
    if ¬ db.openOk then
      { status := 1, emsg := some "cannot open input", diags := [], inserted := [],
        createRequested := none, nColResolved := none,
        streamOpened := false, streamClosed := false, bufFreed := false,
        began := false, committed := false }
    else
      -- lines 287-288, 311-312, and the memset of line 257
      let ctx0 : ImportCtx :=
        { input := input, z := [], n := 0, nAlloc := 0, nLine := 1, cTerm := 0,
          cColSep := colSep, cRowSep := rowSep, seenInterrupt := false, diags := [] }
      -- line 321: import_append_char(&sCtx, 0) to ensure sCtx.z is allocated
      let ctx1 := import_append_char ctx0 0
      match db.selectPrepare with
      | .noSuchTable =>
          -- lines 322-348: synthesize and create the table
          let hd := headerLoop fn ctx1
          let ctx2 := hd.1
          let cols := hd.2
          if cols = [] then
            { status := 1, emsg := some "empty file", diags := ctx2.diags, inserted := [],
              createRequested := none, nColResolved := none,
              streamOpened := true, streamClosed := true, bufFreed := true,
              began := false, committed := false }
          else if ¬ db.createOk then
            { status := 1, emsg := some "CREATE TABLE failed", diags := ctx2.diags,
              inserted := [], createRequested := some cols, nColResolved := none,
              streamOpened := true, streamClosed := true, bufFreed := true,
              began := false, committed := false }
          else
            match db.reprepare with
            | .ok nCol => importRows db fn shell.mode nCol (some cols) ctx2
            | _ =>
                -- line 350-355: close the stream, the buffer is not freed
                { status := 1, emsg := some "prepare failed", diags := ctx2.diags,
                  inserted := [], createRequested := some cols, nColResolved := none,
                  streamOpened := true, streamClosed := true, bufFreed := false,
                  began := false, committed := false }
      | .otherError =>
          { status := 1, emsg := some "prepare failed", diags := ctx1.diags,
            inserted := [], createRequested := none, nColResolved := none,
            streamOpened := true, streamClosed := true, bufFreed := false,
            began := false, committed := false }
      | .ok nCol => importRows db fn shell.mode nCol none ctx1
/- ---------- Common concrete contexts and unfold lemmas ---------- -/

/- The reader context as sqlite_import sets it up (lines 257, 287-288,
   311-312): separators "," and "\n" after CRLF normalization. -/
def initCtx (inp : List Int) : ImportCtx :=
  { input := inp, z := [], n := 0, nAlloc := 0, nLine := 1, cTerm := 0,
    cColSep := 44, cRowSep := 10, seenInterrupt := false, diags := [] }

/- The context right after line 321's import_append_char(&sCtx, 0). -/
def allocCtx (inp : List Int) : ImportCtx := import_append_char (initCtx inp) 0

theorem setupSeparators_import_eq :
    setupSeparators importShellState =
      .ok ({ mode := MODE_Csv, colSeparator := ",", rowSeparator := "\n" }, 44, 10) :=
  rfl

theorem sqlite_import_selOk (o3 : Bool) (rp : PrepareResult) (ip ac : Bool)
    (ex : Nat → Bool) (input : List Int) (n : Nat) :
    sqlite_import ⟨true, .ok n, o3, rp, ip, ac, ex⟩ input
      = importRows ⟨true, .ok n, o3, rp, ip, ac, ex⟩ .csv MODE_Csv n none (allocCtx input) :=
  rfl

theorem sqlite_import_selNoTable (o3 : Bool) (rp : PrepareResult) (ip ac : Bool)
    (ex : Nat → Bool) (input : List Int) :
    sqlite_import ⟨true, .noSuchTable, o3, rp, ip, ac, ex⟩ input
      = (if (headerLoop .csv (allocCtx input)).2 = [] then
           { status := 1, emsg := some "empty file",
             diags := (headerLoop .csv (allocCtx input)).1.diags, inserted := [],
             createRequested := none, nColResolved := none,
             streamOpened := true, streamClosed := true, bufFreed := true,
             began := false, committed := false }
         else if ¬ o3 then
           { status := 1, emsg := some "CREATE TABLE failed",
             diags := (headerLoop .csv (allocCtx input)).1.diags,
             inserted := [], createRequested := some (headerLoop .csv (allocCtx input)).2,
             nColResolved := none,
             streamOpened := true, streamClosed := true, bufFreed := true,
             began := false, committed := false }
         else
           match rp with
           | .ok nCol =>
               importRows ⟨true, .noSuchTable, o3, rp, ip, ac, ex⟩ .csv MODE_Csv nCol
                 (some (headerLoop .csv (allocCtx input)).2) (headerLoop .csv (allocCtx input)).1
           | _ =>
               { status := 1, emsg := some "prepare failed",
                 diags := (headerLoop .csv (allocCtx input)).1.diags,
                 inserted := [], createRequested := some (headerLoop .csv (allocCtx input)).2,
                 nColResolved := none,
                 streamOpened := true, streamClosed := true, bufFreed := false,
                 began := false, committed := false }) :=
  rfl

theorem sqlite_import_selOther (o3 : Bool) (rp : PrepareResult) (ip ac : Bool)
    (ex : Nat → Bool) (input : List Int) :
    sqlite_import ⟨true, .otherError, o3, rp, ip, ac, ex⟩ input
      = { status := 1, emsg := some "prepare failed", diags := (allocCtx input).diags,
          inserted := [], createRequested := none, nColResolved := none,
          streamOpened := true, streamClosed := true, bufFreed := false,
          began := false, committed := false } :=
  rfl

/- ---------- C10 ---------- -/

/-- C10: sqlite_import hardcodes the column separator to a single comma
and the row separator to CRLF, normalized to LF, with CSV mode; the
separator validation succeeds (none of the four failure branches is
taken), the selected reader is csv_read_one_field, and the mode is not
MODE_Ascii, so ascii_read_one_field and the MODE_Ascii first-field check
of the row loop are never exercised. -/
theorem claim_C10_hardcoded_csv_config :
    setupSeparators importShellState =
      .ok ({ mode := MODE_Csv, colSeparator := ",", rowSeparator := "\n" }, 44, 10)
    ∧ importShellState.mode = MODE_Csv
    ∧ importShellState.mode ≠ MODE_Ascii
    ∧ xReadFor importShellState.mode = ReadFn.csv :=
  ⟨rfl, rfl, by decide, rfl⟩

/- ---------- C8 ---------- -/

/-- C8: when the target table does not exist (initial prepare reports "no
such table") and the tokenizer hits end-of-stream on the very first field
read (empty input), sqlite_import fails with the empty-input-file error,
returns nonzero, and never issues a create-table request. -/
theorem claim_C8_empty_input_no_table (db : DbParams)
    (hopen : db.openOk = true) (hsel : db.selectPrepare = .noSuchTable) :
    (sqlite_import db []).status = 1
    ∧ (sqlite_import db []).emsg = some "empty file"
    ∧ (sqlite_import db []).createRequested = none := by
  obtain ⟨o, sel, o3, rp, ip, ac, ex⟩ := db
  simp only at hopen hsel
  subst hopen
  subst hsel
  exact ⟨rfl, rfl, rfl⟩

theorem claim_C8_witness :
    (sqlite_import ⟨true, .noSuchTable, true, .ok 1, true, true, fun _ => true⟩ []).status = 1
    ∧ (sqlite_import ⟨true, .noSuchTable, true, .ok 1, true, true, fun _ => true⟩ []).emsg
        = some "empty file"
    ∧ (sqlite_import ⟨true, .noSuchTable, true, .ok 1, true, true,
        fun _ => true⟩ []).createRequested = none :=
  claim_C8_empty_input_no_table _ rfl rfl

/- ---------- C6 ---------- -/

theorem importRows_status (db : DbParams) (fn : ReadFn) (mode nCol : Nat)
    (created : Option (List (List Int))) (ctx : ImportCtx)
    (h : db.insertPrepareOk = true) :
    (importRows db fn mode nCol created ctx).status = 0 := by
  unfold importRows
  by_cases h0 : nCol = 0
  · rw [if_pos h0]
  · rw [if_neg h0, if_neg (by simp [h])]

/-- C6: whenever configuration, stream opening, table creation and both
statement preparations succeed, sqlite_import returns 0, for every input
and every per-row insert outcome (execOk), i.e. per-row recoverable
diagnostics and failed row inserts never change the overall status. -/
theorem claim_C6_overall_success (db : DbParams) (input : List Int)
    (hopen : db.openOk = true) (hins : db.insertPrepareOk = true)
    (hprep : (∃ n, db.selectPrepare = .ok n)
      ∨ (db.selectPrepare = .noSuchTable ∧ (headerLoop .csv (allocCtx input)).2 ≠ []
          ∧ db.createOk = true ∧ ∃ m, db.reprepare = .ok m)) :
    (sqlite_import db input).status = 0 := by
  obtain ⟨o, sel, o3, rp, ip, ac, ex⟩ := db
  simp only at hopen hins hprep
  subst hopen
  subst hins
  rcases hprep with ⟨n, hn⟩ | ⟨hsel, hcols, hcr, m, hm⟩
  · subst hn
    rw [sqlite_import_selOk]
    exact importRows_status _ _ _ _ _ _ rfl
  · subst hsel
    subst hcr
    subst hm
    rw [sqlite_import_selNoTable]
    rw [if_neg hcols, if_neg (by simp)]
    show (importRows ⟨true, .noSuchTable, true, .ok m, true, ac, ex⟩ ReadFn.csv MODE_Csv m
        (some (headerLoop ReadFn.csv (allocCtx input)).2)
        (headerLoop ReadFn.csv (allocCtx input)).1).status = 0
    exact importRows_status _ _ _ _ _ _ rfl

theorem claim_C6_witness :
    (sqlite_import ⟨true, .ok 1, true, .ok 1, true, true, fun _ => false⟩ [49, 10]).status
      = 0 :=
  claim_C6_overall_success _ _ rfl rfl (.inl ⟨1, rfl⟩)

/- ---------- C7 (corrected) ---------- -/

/-- C7 counterexample: with an existing table whose resolved column count
is 0, sqlite_import takes the zero-column no-op path (line 359) and
returns success while the stream is still open and the field buffer
(allocated at line 321) is still allocated — contradicting the claim that
the function never returns while the stream is open or the buffer
allocated. -/
theorem claim_C7_cex :
    (sqlite_import ⟨true, .ok 0, true, .ok 0, true, true, fun _ => true⟩ []).streamOpened
      = true
    ∧ (sqlite_import ⟨true, .ok 0, true, .ok 0, true, true, fun _ => true⟩ []).status = 0
    ∧ (sqlite_import ⟨true, .ok 0, true, .ok 0, true, true, fun _ => true⟩ []).streamClosed
      = false
    ∧ (sqlite_import ⟨true, .ok 0, true, .ok 0, true, true, fun _ => true⟩ []).bufFreed
      = false := by
  decide

theorem importRows_release (db : DbParams) (fn : ReadFn) (mode nCol : Nat)
    (created : Option (List (List Int))) (ctx : ImportCtx) :
    ((importRows db fn mode nCol created ctx).nColResolved ≠ some 0 →
        (importRows db fn mode nCol created ctx).streamClosed = true)
    ∧ ((importRows db fn mode nCol created ctx).nColResolved = some 0 →
        (importRows db fn mode nCol created ctx).streamClosed = false
        ∧ (importRows db fn mode nCol created ctx).bufFreed = false
        ∧ (importRows db fn mode nCol created ctx).status = 0)
    ∧ ((importRows db fn mode nCol created ctx).status = 0 →
        (importRows db fn mode nCol created ctx).nColResolved ≠ some 0 →
        (importRows db fn mode nCol created ctx).bufFreed = true)
    ∧ ((importRows db fn mode nCol created ctx).status ≠ 0 →
        (importRows db fn mode nCol created ctx).committed = false) := by
  unfold importRows
  split
  · simp_all
  · split <;> simp_all

/- The emsg strings identify the fatal paths of importRows: only the
   insert-statement preparation failure (lines 376-381) reports "prepare
   failed" there, with the stream closed but the buffer not freed. -/
theorem importRows_emsg (db : DbParams) (fn : ReadFn) (mode nCol : Nat)
    (created : Option (List (List Int))) (ctx : ImportCtx) :
    ((importRows db fn mode nCol created ctx).emsg = some "empty file" →
        (importRows db fn mode nCol created ctx).streamClosed = true
        ∧ (importRows db fn mode nCol created ctx).bufFreed = true)
    ∧ ((importRows db fn mode nCol created ctx).emsg = some "CREATE TABLE failed" →
        (importRows db fn mode nCol created ctx).streamClosed = true
        ∧ (importRows db fn mode nCol created ctx).bufFreed = true)
    ∧ ((importRows db fn mode nCol created ctx).emsg = some "prepare failed" →
        (importRows db fn mode nCol created ctx).streamClosed = true
        ∧ (importRows db fn mode nCol created ctx).bufFreed = false) := by
  unfold importRows
  split
  · refine ⟨?_, ?_, ?_⟩ <;> · intro h; exact Option.noConfusion h
  · split
    · refine ⟨?_, ?_, ?_⟩ <;> intro h
      · exact absurd (Option.some.inj h) (by decide)
      · exact absurd (Option.some.inj h) (by decide)
      · exact ⟨rfl, rfl⟩
    · refine ⟨?_, ?_, ?_⟩ <;> · intro h; exact Option.noConfusion h

/-- C7 amended: after the stream has been opened, sqlite_import closes
the stream on every exit path except the zero-column no-op, which returns
success with the stream still open and the buffer still allocated; the
buffer is freed on the empty-file path, on the create-table-failure path
and on the row-loop path, but not on the statement-preparation failure
paths (all of which report "prepare failed"); no fatal exit commits the
transaction. -/
theorem claim_C7_amended (db : DbParams) (input : List Int)
    (hopen : db.openOk = true) :
    ((sqlite_import db input).nColResolved ≠ some 0 →
        (sqlite_import db input).streamClosed = true)
    ∧ ((sqlite_import db input).nColResolved = some 0 →
        (sqlite_import db input).streamClosed = false
        ∧ (sqlite_import db input).bufFreed = false
        ∧ (sqlite_import db input).status = 0)
    ∧ ((sqlite_import db input).status = 0 →
        (sqlite_import db input).nColResolved ≠ some 0 →
        (sqlite_import db input).bufFreed = true)
    ∧ ((sqlite_import db input).status ≠ 0 →
        (sqlite_import db input).committed = false)
    ∧ ((sqlite_import db input).emsg = some "empty file" →
        (sqlite_import db input).streamClosed = true
        ∧ (sqlite_import db input).bufFreed = true)
    ∧ ((sqlite_import db input).emsg = some "CREATE TABLE failed" →
        (sqlite_import db input).streamClosed = true
        ∧ (sqlite_import db input).bufFreed = true)
    ∧ ((sqlite_import db input).emsg = some "prepare failed" →
        (sqlite_import db input).streamClosed = true
        ∧ (sqlite_import db input).bufFreed = false) := by
  obtain ⟨o, sel, o3, rp, ip, ac, ex⟩ := db
  simp only at hopen
  subst hopen
  cases sel with
  | ok n =>
      rw [sqlite_import_selOk]
      obtain ⟨a1, a2, a3, a4⟩ := importRows_release ⟨true, .ok n, o3, rp, ip, ac, ex⟩
        .csv MODE_Csv n none (allocCtx input)
      obtain ⟨b1, b2, b3⟩ := importRows_emsg ⟨true, .ok n, o3, rp, ip, ac, ex⟩
        .csv MODE_Csv n none (allocCtx input)
      exact ⟨a1, a2, a3, a4, b1, b2, b3⟩
  | noSuchTable =>
      rw [sqlite_import_selNoTable]
      split
      · exact ⟨fun _ => rfl, by simp, by simp, fun _ => rfl, fun _ => ⟨rfl, rfl⟩,
          fun h => absurd (Option.some.inj h) (by decide),
          fun h => absurd (Option.some.inj h) (by decide)⟩
      · split
        · exact ⟨fun _ => rfl, by simp, by simp, fun _ => rfl,
            fun h => absurd (Option.some.inj h) (by decide), fun _ => ⟨rfl, rfl⟩,
            fun h => absurd (Option.some.inj h) (by decide)⟩
        · split
          · obtain ⟨a1, a2, a3, a4⟩ := importRows_release _ _ _ _ _ _
            obtain ⟨b1, b2, b3⟩ := importRows_emsg _ _ _ _ _ _
            exact ⟨a1, a2, a3, a4, b1, b2, b3⟩
          · exact ⟨fun _ => rfl, by simp, by simp, fun _ => rfl,
              fun h => absurd (Option.some.inj h) (by decide),
              fun h => absurd (Option.some.inj h) (by decide), fun _ => ⟨rfl, rfl⟩⟩
  | otherError =>
      rw [sqlite_import_selOther]
      exact ⟨fun _ => rfl, by simp, by simp, fun _ => rfl,
        fun h => absurd (Option.some.inj h) (by decide),
        fun h => absurd (Option.some.inj h) (by decide), fun _ => ⟨rfl, rfl⟩⟩

theorem claim_C7_amended_witness :
    ((sqlite_import ⟨true, .ok 2, true, .ok 2, true, true, fun _ => true⟩
        [49, 44, 50, 10]).nColResolved ≠ some 0 →
      (sqlite_import ⟨true, .ok 2, true, .ok 2, true, true, fun _ => true⟩
        [49, 44, 50, 10]).streamClosed = true)
    ∧ ((sqlite_import ⟨true, .ok 2, true, .ok 2, true, true, fun _ => true⟩
        [49, 44, 50, 10]).nColResolved = some 0 →
      (sqlite_import ⟨true, .ok 2, true, .ok 2, true, true, fun _ => true⟩
        [49, 44, 50, 10]).streamClosed = false
      ∧ (sqlite_import ⟨true, .ok 2, true, .ok 2, true, true, fun _ => true⟩
        [49, 44, 50, 10]).bufFreed = false
      ∧ (sqlite_import ⟨true, .ok 2, true, .ok 2, true, true, fun _ => true⟩
        [49, 44, 50, 10]).status = 0)
    ∧ ((sqlite_import ⟨true, .ok 2, true, .ok 2, true, true, fun _ => true⟩
        [49, 44, 50, 10]).status = 0 →
      (sqlite_import ⟨true, .ok 2, true, .ok 2, true, true, fun _ => true⟩
        [49, 44, 50, 10]).nColResolved ≠ some 0 →
      (sqlite_import ⟨true, .ok 2, true, .ok 2, true, true, fun _ => true⟩
        [49, 44, 50, 10]).bufFreed = true)
    ∧ ((sqlite_import ⟨true, .ok 2, true, .ok 2, true, true, fun _ => true⟩
        [49, 44, 50, 10]).status ≠ 0 →
      (sqlite_import ⟨true, .ok 2, true, .ok 2, true, true, fun _ => true⟩
        [49, 44, 50, 10]).committed = false)
    ∧ ((sqlite_import ⟨true, .ok 2, true, .ok 2, true, true, fun _ => true⟩
        [49, 44, 50, 10]).emsg = some "empty file" →
      (sqlite_import ⟨true, .ok 2, true, .ok 2, true, true, fun _ => true⟩
        [49, 44, 50, 10]).streamClosed = true
      ∧ (sqlite_import ⟨true, .ok 2, true, .ok 2, true, true, fun _ => true⟩
        [49, 44, 50, 10]).bufFreed = true)
    ∧ ((sqlite_import ⟨true, .ok 2, true, .ok 2, true, true, fun _ => true⟩
        [49, 44, 50, 10]).emsg = some "CREATE TABLE failed" →
      (sqlite_import ⟨true, .ok 2, true, .ok 2, true, true, fun _ => true⟩
        [49, 44, 50, 10]).streamClosed = true
      ∧ (sqlite_import ⟨true, .ok 2, true, .ok 2, true, true, fun _ => true⟩
        [49, 44, 50, 10]).bufFreed = true)
    ∧ ((sqlite_import ⟨true, .ok 2, true, .ok 2, true, true, fun _ => true⟩
        [49, 44, 50, 10]).emsg = some "prepare failed" →
      (sqlite_import ⟨true, .ok 2, true, .ok 2, true, true, fun _ => true⟩
        [49, 44, 50, 10]).streamClosed = true
      ∧ (sqlite_import ⟨true, .ok 2, true, .ok 2, true, true, fun _ => true⟩
        [49, 44, 50, 10]).bufFreed = false) :=
  claim_C7_amended _ _ rfl

/- ---------- C9 counterexample ---------- -/

/-- C9 counterexample: reading the one-byte input "a" leaves z = [97, 0, ...]
with n = 1; the next call hits end-of-stream on its first fgetc and takes
the early-return path (lines 148-151), which resets n to 0 and returns
NULL without executing line 200, so after that read the buffer is not
null-terminated at index n: z[0] is still 97. -/
theorem claim_C9_cex :
    ((csv_read_one_field ((csv_read_one_field (allocCtx [97])).2)).1 = none)
    ∧ ((csv_read_one_field ((csv_read_one_field (allocCtx [97])).2)).2.cTerm = -1)
    ∧ ((csv_read_one_field ((csv_read_one_field (allocCtx [97])).2)).2.n = 0)
    ∧ ((csv_read_one_field ((csv_read_one_field (allocCtx [97])).2)).2.z.getD 0 256 = 97)
    ∧ ¬ ((csv_read_one_field ((csv_read_one_field (allocCtx [97])).2)).2.z.getD 0 256 = 0) := by
  decide

/- ---------- C5 counterexample ---------- -/

/-- C5 counterexample: loading the single-row input double-quote x LF
double-quote z (bytes [34,120,10,34,122]) emits an unescaped-quote
diagnostic whose line number is 2 — the current line at the point of
detection (line 176 prints p->nLine) — even though the row being read
starts at line 1, so not every diagnostic of the load references the
row's starting line. -/
theorem claim_C5_cex :
    ((sqlite_import ⟨true, .ok 1, true, .ok 1, true, true, fun _ => true⟩
        [34, 120, 10, 34, 122]).diags.map Diag.line = [2, 1])
    ∧ ((sqlite_import ⟨true, .ok 1, true, .ok 1, true, true, fun _ => true⟩
        [34, 120, 10, 34, 122]).diags.all (fun d => d.line == 1) = false) := by
  decide

/- ---------- Buffer invariant and generic list lemmas ---------- -/

/- The TokenizerState invariant of the spec: z has exactly nAlloc cells,
   and after any append n stays strictly below nAlloc (so the NUL write
   of line 200 is in bounds); a never-allocated buffer has n = 0. -/
def bufInv (p : ImportCtx) : Prop :=
  p.z.length = p.nAlloc ∧ (p.n < p.nAlloc ∨ (p.n = 0 ∧ p.nAlloc = 0))

theorem take_set_succ {α : Type} : ∀ (l : List α) (n : Nat) (a : α), n < l.length →
    (l.set n a).take (n + 1) = l.take n ++ [a]
  | _ :: _, 0, a, _ => by simp
  | b :: l, n + 1, a, h => by
      have ih := take_set_succ l n a (by simpa using h)
      simp [List.set, ih]
  | [], n, a, h => by simp at h

theorem drop_set_of_lt {α : Type} : ∀ (l : List α) (k m : Nat) (a : α), k < m →
    (l.set k a).drop m = l.drop m
  | [], _, _, _, _ => by simp
  | b :: l, 0, m + 1, a, _ => by simp [List.set]
  | b :: l, k + 1, m + 1, a, h => by
      simp only [List.set, List.drop_succ_cons]
      exact drop_set_of_lt l k m a (by omega)
  | b :: l, _, 0, a, h => absurd h (by omega)

theorem take_set_of_le {α : Type} : ∀ (l : List α) (k n : Nat) (a : α), n ≤ k →
    (l.set k a).take n = l.take n
  | [], _, _, _, _ => by simp
  | b :: l, k, 0, a, _ => by simp
  | b :: l, k + 1, n + 1, a, h => by
      simp only [List.set, List.take_succ_cons]
      rw [take_set_of_le l k n a (by omega)]
  | b :: l, 0, n + 1, a, h => absurd h (by omega)

theorem getD_set_self {α : Type} (l : List α) (i : Nat) (a d : α) (h : i < l.length) :
    (l.set i a).getD i d = a := by
  rw [List.getD_eq_getElem?_getD, List.getElem?_set_self (by simpa using h)]
  rfl

theorem getD_concat_of_take (z w : List Int) (n : Nat) (a : Int)
    (ht : z.take n = w ++ [a]) (hn : n ≤ z.length) : z.getD (n - 1) 256 = a := by
  have hlen : (z.take n).length = n := by simp [Nat.min_eq_left hn]
  have hw : w.length = n - 1 := by
    rw [ht] at hlen
    simp at hlen
    omega
  have hn0 : 0 < n := by
    rw [ht] at hlen
    simp at hlen
    omega
  have h1 : z.getD (n - 1) 256 = (z.take n).getD (n - 1) 256 := by
    rw [List.getD_eq_getElem?_getD, List.getD_eq_getElem?_getD, List.getElem?_take]
    rw [if_pos (by omega)]
  rw [h1, ht, ← hw, List.getD_eq_getElem?_getD]
  rw [List.getElem?_concat_length w a]
  rfl

theorem takeWhile_eq_take_of_zero : ∀ (z : List Int) (n : Nat), n < z.length →
    (∀ b ∈ z.take n, b ≠ 0) → z.getD n 256 = 0 →
    z.takeWhile (fun b => b != 0) = z.take n
  | [], n, h, _, _ => by simp at h
  | a :: z, 0, _, _, h0 => by
      have ha : a = 0 := by simpa [List.getD] using h0
      subst ha
      simp [List.takeWhile_cons]
  | a :: z, n + 1, h, hne, h0 => by
      have ha : a ≠ 0 := hne a (by simp)
      have ih := takeWhile_eq_take_of_zero z n (by simpa using h)
        (fun b hb => hne b (by simp [hb])) (by simpa [List.getD] using h0)
      simp [List.takeWhile_cons, ha, ih]

/- ---------- import_append_char lemmas ---------- -/

theorem app_input (p : ImportCtx) (c : Int) : (import_append_char p c).input = p.input := by
  unfold import_append_char
  split <;> rfl

theorem app_nLine (p : ImportCtx) (c : Int) : (import_append_char p c).nLine = p.nLine := by
  unfold import_append_char
  split <;> rfl

theorem app_cTerm (p : ImportCtx) (c : Int) : (import_append_char p c).cTerm = p.cTerm := by
  unfold import_append_char
  split <;> rfl

theorem app_cColSep (p : ImportCtx) (c : Int) : (import_append_char p c).cColSep = p.cColSep := by
  unfold import_append_char
  split <;> rfl

theorem app_cRowSep (p : ImportCtx) (c : Int) : (import_append_char p c).cRowSep = p.cRowSep := by
  unfold import_append_char
  split <;> rfl

theorem app_seenInterrupt (p : ImportCtx) (c : Int) :
    (import_append_char p c).seenInterrupt = p.seenInterrupt := by
  unfold import_append_char
  split <;> rfl

theorem app_diags (p : ImportCtx) (c : Int) : (import_append_char p c).diags = p.diags := by
  unfold import_append_char
  split <;> rfl

theorem app_n (p : ImportCtx) (c : Int) : (import_append_char p c).n = p.n + 1 := by
  unfold import_append_char
  split <;> rfl

theorem app_nAlloc_ne (p : ImportCtx) (c : Int) : (import_append_char p c).nAlloc ≠ 0 := by
  unfold import_append_char
  split
  · simp only []
    omega
  · next h =>
    simp only []
    omega

theorem app_bufInv (p : ImportCtx) (c : Int) (h : bufInv p) :
    bufInv (import_append_char p c) := by
  obtain ⟨hlen, hn⟩ := h
  unfold import_append_char bufInv
  split
  · next hge =>
    constructor
    · simp [hlen]
      omega
    · left
      simp only []
      omega
  · next hlt =>
    constructor
    · simp [hlen]
    · left
      simp only []
      omega

theorem app_take (p : ImportCtx) (c : Int) (h : bufInv p) :
    (import_append_char p c).z.take (import_append_char p c).n = p.z.take p.n ++ [c] := by
  obtain ⟨hlen, hn⟩ := h
  unfold import_append_char
  split
  · next hge =>
    simp only []
    rw [take_set_succ _ _ _ (by simp [hlen]; omega)]
    rw [List.take_append_of_le_length (by omega)]
  · next hlt =>
    simp only []
    rw [take_set_succ _ _ _ (by omega)]

theorem app_set_input (p : ImportCtx) (c : Int) (x : List Int) :
    import_append_char { p with input := x } c = { import_append_char p c with input := x } := by
  unfold import_append_char
  dsimp only
  split <;> rfl

/- ---------- appendMany: net effect of a run of appends ---------- -/

def appendMany (p : ImportCtx) (l : List Int) : ImportCtx := l.foldl import_append_char p

theorem appendMany_nil (p : ImportCtx) : appendMany p [] = p := rfl

theorem appendMany_cons (p : ImportCtx) (c : Int) (l : List Int) :
    appendMany p (c :: l) = appendMany (import_append_char p c) l := rfl

theorem appendMany_input : ∀ (l : List Int) (p : ImportCtx), (appendMany p l).input = p.input
  | [], _ => rfl
  | c :: l, p => by rw [appendMany_cons, appendMany_input l, app_input]

theorem appendMany_nLine : ∀ (l : List Int) (p : ImportCtx), (appendMany p l).nLine = p.nLine
  | [], _ => rfl
  | c :: l, p => by rw [appendMany_cons, appendMany_nLine l, app_nLine]

theorem appendMany_cTerm : ∀ (l : List Int) (p : ImportCtx), (appendMany p l).cTerm = p.cTerm
  | [], _ => rfl
  | c :: l, p => by rw [appendMany_cons, appendMany_cTerm l, app_cTerm]

theorem appendMany_cColSep : ∀ (l : List Int) (p : ImportCtx),
    (appendMany p l).cColSep = p.cColSep
  | [], _ => rfl
  | c :: l, p => by rw [appendMany_cons, appendMany_cColSep l, app_cColSep]

theorem appendMany_cRowSep : ∀ (l : List Int) (p : ImportCtx),
    (appendMany p l).cRowSep = p.cRowSep
  | [], _ => rfl
  | c :: l, p => by rw [appendMany_cons, appendMany_cRowSep l, app_cRowSep]

theorem appendMany_seenInterrupt : ∀ (l : List Int) (p : ImportCtx),
    (appendMany p l).seenInterrupt = p.seenInterrupt
  | [], _ => rfl
  | c :: l, p => by rw [appendMany_cons, appendMany_seenInterrupt l, app_seenInterrupt]

theorem appendMany_diags : ∀ (l : List Int) (p : ImportCtx), (appendMany p l).diags = p.diags
  | [], _ => rfl
  | c :: l, p => by rw [appendMany_cons, appendMany_diags l, app_diags]

theorem appendMany_n : ∀ (l : List Int) (p : ImportCtx), (appendMany p l).n = p.n + l.length
  | [], _ => by simp [appendMany_nil]
  | c :: l, p => by
      rw [appendMany_cons, appendMany_n l, app_n]
      simp
      omega

theorem appendMany_nAlloc_pres : ∀ (l : List Int) (p : ImportCtx),
    p.nAlloc ≠ 0 → (appendMany p l).nAlloc ≠ 0
  | [], _, h => h
  | c :: l, p, _ => by
      rw [appendMany_cons]
      exact appendMany_nAlloc_pres l _ (app_nAlloc_ne p c)

theorem appendMany_bufInv : ∀ (l : List Int) (p : ImportCtx),
    bufInv p → bufInv (appendMany p l)
  | [], _, h => h
  | c :: l, p, h => by
      rw [appendMany_cons]
      exact appendMany_bufInv l _ (app_bufInv p c h)

theorem appendMany_take : ∀ (l : List Int) (p : ImportCtx), bufInv p →
    (appendMany p l).z.take (appendMany p l).n = p.z.take p.n ++ l
  | [], p, _ => by simp [appendMany_nil]
  | c :: l, p, h => by
      rw [appendMany_cons, appendMany_take l _ (app_bufInv p c h), app_take p c h]
      simp

theorem appendMany_set_input : ∀ (l : List Int) (p : ImportCtx) (x : List Int),
    appendMany { p with input := x } l = { appendMany p l with input := x }
  | [], _, _ => rfl
  | c :: l, p, x => by
      rw [appendMany_cons, app_set_input, appendMany_set_input l]
      rfl

/- ---------- Unquoted scanning: specification lemmas ---------- -/

theorem csvUnquotedGo_exit (c : Int) (inp : List Int) (p : ImportCtx)
    (h : c = -1 ∨ c = p.cColSep ∨ c = p.cRowSep) :
    csvUnquotedGo c inp p = csvUnquotedFinish c p := by
  cases inp <;> simp [csvUnquotedGo, h]

theorem csvUnquotedGo_step (c b : Int) (rest : List Int) (p : ImportCtx)
    (h : ¬(c = -1 ∨ c = p.cColSep ∨ c = p.cRowSep)) :
    csvUnquotedGo c (b :: rest) p
      = csvUnquotedGo b rest (import_append_char { p with input := rest } c) := by
  simp [csvUnquotedGo, h]

/- Reading one unquoted plain field: scanning c :: f up to a separator t
   appends exactly c :: f and stops with csvUnquotedFinish t. -/
theorem csvUnquotedGo_scan : ∀ (f : List Int) (c t : Int) (rest : List Int) (p : ImportCtx),
    ¬(c = -1 ∨ c = p.cColSep ∨ c = p.cRowSep) →
    (∀ b ∈ f, ¬(b = -1 ∨ b = p.cColSep ∨ b = p.cRowSep)) →
    (t = p.cColSep ∨ t = p.cRowSep) →
    csvUnquotedGo c (f ++ t :: rest) p
      = csvUnquotedFinish t (appendMany { p with input := rest } (c :: f))
  | [], c, t, rest, p, hc, _, ht => by
      rw [List.nil_append, csvUnquotedGo_step c t rest p hc]
      rw [csvUnquotedGo_exit t rest _ (by
        rcases ht with h | h
        · exact Or.inr (Or.inl (by rw [h, app_cColSep]))
        · exact Or.inr (Or.inr (by rw [h, app_cRowSep])))]
      rfl
  | b :: f2, c, t, rest, p, hc, hf, ht => by
      rw [List.cons_append, csvUnquotedGo_step c b _ p hc]
      have hb : ¬(b = -1 ∨ b = (import_append_char { p with input := f2 ++ t :: rest } c).cColSep
          ∨ b = (import_append_char { p with input := f2 ++ t :: rest } c).cRowSep) := by
        rw [app_cColSep, app_cRowSep]
        exact hf b (by simp)
      have hf2 : ∀ x ∈ f2, ¬(x = -1
          ∨ x = (import_append_char { p with input := f2 ++ t :: rest } c).cColSep
          ∨ x = (import_append_char { p with input := f2 ++ t :: rest } c).cRowSep) := by
        intro x hx
        rw [app_cColSep, app_cRowSep]
        exact hf x (by simp [hx])
      have ht2 : t = (import_append_char { p with input := f2 ++ t :: rest } c).cColSep
          ∨ t = (import_append_char { p with input := f2 ++ t :: rest } c).cRowSep := by
        rw [app_cColSep, app_cRowSep]
        exact ht
      rw [csvUnquotedGo_scan f2 b t rest _ hb hf2 ht2]
      conv_rhs => rw [appendMany_cons]
      have harg : ({ import_append_char { p with input := f2 ++ t :: rest } c with
            input := rest } : ImportCtx)
          = import_append_char { p with input := rest } c := by
        unfold import_append_char
        dsimp only
        split <;> rfl
      rw [harg]

/- ---------- csvUnquotedFinish and value extraction ---------- -/

theorem finish_col (q : ImportCtx) (hq : q.cRowSep = 10) :
    csvUnquotedFinish 44 q = { q with cTerm := 44 } := by
  unfold csvUnquotedFinish
  rw [if_neg (by rw [hq]; decide)]

theorem finish_row_nostrip (q : ImportCtx) (hq : q.cRowSep = 10)
    (h : ¬(0 < q.n ∧ q.z.getD (q.n - 1) 256 = 13)) :
    csvUnquotedFinish 10 q = { q with nLine := q.nLine + 1, cTerm := 10 } := by
  unfold csvUnquotedFinish
  rw [if_pos hq.symm]
  dsimp only
  rw [if_neg h]

theorem cstr_set_take (z : List Int) (n : Nat) (f : List Int)
    (hlen : n < z.length) (htake : z.take n = f) (hf : ∀ b ∈ f, b ≠ 0) :
    cstr (z.set n 0) = f := by
  unfold cstr
  rw [takeWhile_eq_take_of_zero (z.set n 0) n (by simpa using hlen)
      (by rw [take_set_of_le z n n 0 le_rfl, htake]; exact hf)
      (getD_set_self z n 0 256 hlen)]
  rw [take_set_of_le z n n 0 le_rfl, htake]

/- Unfolding csv_read_one_field when the first fgetc yields a data byte. -/
theorem csv_read_one_field_cons (p : ImportCtx) (c : Int) (rest : List Int)
    (h : p.input = c :: rest) (hc : ¬ c = -1) (hs : p.seenInterrupt = false) :
    csv_read_one_field p =
      (let p1 : ImportCtx := { p with n := 0, input := rest }
       let p2 := if c = 34 then csvQuotedGo p1.nLine 0 0 rest p1 else csvUnquotedGo c rest p1
       let p3 := if p2.nAlloc ≠ 0 then { p2 with z := p2.z.set p2.n 0 } else p2
       (if p3.nAlloc ≠ 0 then some (cstr p3.z) else none, p3)) := by
  unfold csv_read_one_field
  dsimp only
  rw [h]
  dsimp only
  rw [if_neg (by simp [hc, hs])]

/- Well-formed plain CSV field values for the hardcoded separators:
   no EOF marker, no separator byte, no NUL, not starting with a quote,
   not ending in a bare CR. -/
def plainField (f : List Int) : Prop :=
  (∀ b ∈ f, b ≠ -1 ∧ b ≠ 44 ∧ b ≠ 10 ∧ b ≠ 0) ∧ f.head? ≠ some 34 ∧ f.getLast? ≠ some 13

instance (f : List Int) : Decidable (plainField f) := by
  unfold plainField
  infer_instance

/- Reader-context well-formedness as sqlite_import maintains it after
   line 321: allocated buffer, no pending interrupt, separators "," LF. -/
def ctxOk (p : ImportCtx) : Prop :=
  bufInv p ∧ p.nAlloc ≠ 0 ∧ p.seenInterrupt = false ∧ p.cColSep = 44 ∧ p.cRowSep = 10

instance (p : ImportCtx) : Decidable (ctxOk p) := by
  unfold ctxOk bufInv
  infer_instance

/- Reading one plain field terminated by t (the column separator or the
   row separator): the call returns exactly the field bytes, stores t in
   cTerm, consumes the field and its terminator, bumps nLine on a row
   separator, prints nothing, and preserves the context invariant. -/
theorem csv_read_plain (p : ImportCtx) (f : List Int) (t : Int) (rest : List Int)
    (hok : ctxOk p) (hin : p.input = f ++ t :: rest) (ht : t = 44 ∨ t = 10)
    (hf : plainField f) :
    (csv_read_one_field p).1 = some f
    ∧ (csv_read_one_field p).2.cTerm = t
    ∧ (csv_read_one_field p).2.input = rest
    ∧ (csv_read_one_field p).2.nLine = p.nLine + (if t = 10 then 1 else 0)
    ∧ (csv_read_one_field p).2.diags = p.diags
    ∧ ctxOk (csv_read_one_field p).2 := by
  obtain ⟨⟨hlen, hbound⟩, halloc, hint, hcs, hrs⟩ := hok
  have ht1 : ¬ t = -1 := by rcases ht with h | h <;> simp [h]
  have ht34 : ¬ t = 34 := by rcases ht with h | h <;> simp [h]
  -- the state after p->n = 0 and the first fgetc, with the to-be-scanned
  -- suffix already removed, and the appended result Q
  have hscan : csv_read_one_field p =
      (let Q := appendMany { p with n := 0, input := rest } f
       let R := csvUnquotedFinish t Q
       let p3 := if R.nAlloc ≠ 0 then { R with z := R.z.set R.n 0 } else R
       (if p3.nAlloc ≠ 0 then some (cstr p3.z) else none, p3)) := by
    cases f with
    | nil =>
        rw [csv_read_one_field_cons p t rest (by simpa using hin) ht1 hint]
        dsimp only
        rw [if_neg ht34]
        rw [csvUnquotedGo_exit t rest _ (by
          rcases ht with h | h
          · exact Or.inr (Or.inl (by rw [h]; exact hcs.symm))
          · exact Or.inr (Or.inr (by rw [h]; exact hrs.symm)))]
        rfl
    | cons c f2 =>
        have hcb := hf.1 c (by simp)
        have hch : ¬ c = 34 := by
          intro hcc
          exact hf.2.1 (by simp [hcc])
        rw [csv_read_one_field_cons p c (f2 ++ t :: rest) (by simpa using hin)
          (by exact hcb.1) hint]
        dsimp only
        rw [if_neg hch]
        rw [csvUnquotedGo_scan f2 c t rest _
          (by
            dsimp only
            rw [hcs, hrs]
            simp [hcb.1, hcb.2.1, hcb.2.2.1])
          (by
            intro b hb
            dsimp only
            rw [hcs, hrs]
            have := hf.1 b (by simp [hb])
            simp [this.1, this.2.1, this.2.2.1])
          (by
            dsimp only
            rw [hcs, hrs]
            exact ht)]
  -- facts about Q
  have hq0inv : bufInv ({ p with n := 0, input := rest } : ImportCtx) :=
    ⟨hlen, Or.inl (Nat.pos_of_ne_zero halloc)⟩
  have hQinv : bufInv (appendMany { p with n := 0, input := rest } f) :=
    appendMany_bufInv f _ hq0inv
  have hQalloc : (appendMany { p with n := 0, input := rest } f).nAlloc ≠ 0 :=
    appendMany_nAlloc_pres f _ halloc
  have hQn : (appendMany { p with n := 0, input := rest } f).n = f.length := by
    rw [appendMany_n]
    simp
  have hQtake : (appendMany { p with n := 0, input := rest } f).z.take
      (appendMany { p with n := 0, input := rest } f).n = f := by
    rw [appendMany_take f _ hq0inv]
    simp
  have hQlen : (appendMany { p with n := 0, input := rest } f).n
      < (appendMany { p with n := 0, input := rest } f).z.length := by
    rcases hQinv with ⟨hl, hc | hc⟩
    · omega
    · exact absurd hc.2 hQalloc
  have hQrs : (appendMany { p with n := 0, input := rest } f).cRowSep = 10 := by
    rw [appendMany_cRowSep]
    exact hrs
  -- no CR strip can fire
  have hstrip : ¬(0 < (appendMany { p with n := 0, input := rest } f).n
      ∧ (appendMany { p with n := 0, input := rest } f).z.getD
          ((appendMany { p with n := 0, input := rest } f).n - 1) 256 = 13) := by
    rcases List.eq_nil_or_concat f with hfe | ⟨w, a, hfe⟩
    · intro hcontra
      rw [hQn, hfe] at hcontra
      simp at hcontra
    · intro hcontra
      have ha : (appendMany { p with n := 0, input := rest } f).z.getD
          ((appendMany { p with n := 0, input := rest } f).n - 1) 256 = a := by
        exact getD_concat_of_take _ w _ a (by rw [hQtake, hfe, List.concat_eq_append])
          (le_of_lt hQlen)
      have ha13 : a ≠ 13 := by
        intro haa
        apply hf.2.2
        rw [hfe, List.concat_eq_append, List.getLast?_concat, haa]
      exact ha13 (by rw [← ha]; exact hcontra.2)
  rw [hscan]
  dsimp only
  rcases ht with h | h
  · subst h
    rw [finish_col _ hQrs]
    dsimp only
    rw [if_pos hQalloc]
    dsimp only
    rw [if_pos hQalloc]
    refine ⟨?_, rfl, ?_, ?_, ?_, ?_⟩
    · rw [cstr_set_take _ _ f hQlen hQtake (fun b hb => (hf.1 b hb).2.2.2)]
    · rw [appendMany_input]
    · rw [if_neg (by decide), appendMany_nLine]
      simp
    · rw [appendMany_diags]
    · refine ⟨⟨?_, ?_⟩, hQalloc, ?_, ?_, hQrs⟩
      · rw [List.length_set]
        exact hQinv.1
      · left
        rcases hQinv with ⟨hl, hcc | hcc⟩
        · exact hcc
        · exact absurd hcc.2 hQalloc
      · rw [appendMany_seenInterrupt]
        exact hint
      · rw [appendMany_cColSep]
        exact hcs
  · subst h
    rw [finish_row_nostrip _ hQrs hstrip]
    dsimp only
    rw [if_pos hQalloc]
    dsimp only
    rw [if_pos hQalloc]
    refine ⟨?_, rfl, ?_, ?_, ?_, ?_⟩
    · rw [cstr_set_take _ _ f hQlen hQtake (fun b hb => (hf.1 b hb).2.2.2)]
    · rw [appendMany_input]
    · rw [if_pos rfl, appendMany_nLine]
    · rw [appendMany_diags]
    · refine ⟨⟨?_, ?_⟩, hQalloc, ?_, ?_, hQrs⟩
      · rw [List.length_set]
        exact hQinv.1
      · left
        rcases hQinv with ⟨hl, hcc | hcc⟩
        · exact hcc
        · exact absurd hcc.2 hQalloc
      · rw [appendMany_seenInterrupt]
        exact hint
      · rw [appendMany_cColSep]
        exact hcs

/- ---------- C1 ---------- -/

/- A well-formed CSV row: fields separated by the configured column
   separator "," (44) and terminated by the configured row separator LF
   (10), followed by the remaining stream. -/
def encodeRow : List (List Int) → List Int → List Int
  | [], rest => rest
  | [f], rest => f ++ 10 :: rest
  | f :: fs, rest => f ++ 44 :: encodeRow fs rest

/- N successive calls of the reader, collecting each call's returned
   value together with the terminator it stored in cTerm. -/
def readFieldsN (fn : ReadFn) : Nat → ImportCtx → List (Option (List Int) × Int) × ImportCtx
  | 0, ctx => ([], ctx)
  | k + 1, ctx =>
      let r := readOneField fn ctx
      let r2 := readFieldsN fn k r.2
      ((r.1, r.2.cTerm) :: r2.1, r2.2)

/-- C1: for every well-formed CSV row of N plain fields separated by the
configured column separator and terminated by the configured row
separator, N successive csv_read_one_field calls return exactly those N
field values in order; the first N-1 calls store the column separator as
terminator and the N-th call stores the row separator. -/
theorem claim_C1_wellformed_row_reads : ∀ (fields : List (List Int)) (p : ImportCtx)
    (rest : List Int), ctxOk p → fields ≠ [] → (∀ f ∈ fields, plainField f) →
    p.input = encodeRow fields rest →
    (readFieldsN .csv fields.length p).1.map Prod.fst = fields.map some
    ∧ (readFieldsN .csv fields.length p).1.map Prod.snd
        = List.replicate (fields.length - 1) 44 ++ [10]
    ∧ (readFieldsN .csv fields.length p).2.cTerm = 10
    ∧ (readFieldsN .csv fields.length p).2.input = rest
    ∧ ctxOk (readFieldsN .csv fields.length p).2
  | [], _, _, _, hne, _, _ => absurd rfl hne
  | [f], p, rest, hok, _, hpl, hin => by
      have hr := csv_read_plain p f 10 rest hok (by simpa [encodeRow] using hin)
        (Or.inr rfl) (hpl f (by simp))
      have hstep : readFieldsN .csv [f].length p
          = ([((csv_read_one_field p).1, (csv_read_one_field p).2.cTerm)],
             (csv_read_one_field p).2) := rfl
      rw [hstep]
      refine ⟨?_, ?_, ?_, ?_, ?_⟩ <;>
        simp [hr.1, hr.2.1, hr.2.2.1, hr.2.2.2.2.2]
  | f :: g :: fs, p, rest, hok, _, hpl, hin => by
      have hr := csv_read_plain p f 44 (encodeRow (g :: fs) rest) hok
        (by simpa [encodeRow] using hin) (Or.inl rfl) (hpl f (by simp))
      have ih := claim_C1_wellformed_row_reads (g :: fs) (csv_read_one_field p).2 rest
        hr.2.2.2.2.2 (by simp) (fun x hx => hpl x (by simp [hx])) hr.2.2.1
      have hstep : readFieldsN .csv (f :: g :: fs).length p
          = (((csv_read_one_field p).1, (csv_read_one_field p).2.cTerm)
              :: (readFieldsN .csv (g :: fs).length (csv_read_one_field p).2).1,
             (readFieldsN .csv (g :: fs).length (csv_read_one_field p).2).2) := rfl
      rw [hstep]
      refine ⟨?_, ?_, ?_, ?_, ?_⟩
      · simp only [List.map_cons]
        rw [hr.1, ih.1]
        simp
      · simp only [List.map_cons]
        rw [hr.2.1, ih.2.1]
        simp [List.replicate_succ]
      · exact ih.2.2.1
      · exact ih.2.2.2.1
      · exact ih.2.2.2.2

theorem claim_C1_witness :
    (readFieldsN .csv 2 (allocCtx [97, 44, 98, 10])).1.map Prod.fst = [some [97], some [98]]
    ∧ (readFieldsN .csv 2 (allocCtx [97, 44, 98, 10])).1.map Prod.snd = [44, 10]
    ∧ (readFieldsN .csv 2 (allocCtx [97, 44, 98, 10])).2.cTerm = 10
    ∧ (readFieldsN .csv 2 (allocCtx [97, 44, 98, 10])).2.input = []
    ∧ ctxOk (readFieldsN .csv 2 (allocCtx [97, 44, 98, 10])).2 :=
  claim_C1_wellformed_row_reads [[97], [98]] (allocCtx [97, 44, 98, 10]) []
    (by decide) (by decide) (by decide) (by decide)

/- ---------- Statement-slot bookkeeping for the row loop ---------- -/

/- The binds performed by the for loop: slot index i gets some f for each
   successive field f (sqlite3_bind_text at line 399, 1-based i+1). -/
def setFields : List (Option (List Int)) → Nat → List (List Int) → List (Option (List Int))
  | stmt, _, [] => stmt
  | stmt, i, f :: fs => setFields (stmt.set i (some f)) (i + 1) fs

theorem setFields_eq : ∀ (fields : List (List Int)) (stmt : List (Option (List Int)))
    (i : Nat), i + fields.length ≤ stmt.length →
    setFields stmt i fields
      = stmt.take i ++ fields.map some ++ stmt.drop (i + fields.length)
  | [], stmt, i, h => by simp [setFields]
  | f :: fs, stmt, i, h => by
      have hlen : i < stmt.length := by
        simp only [List.length_cons] at h
        omega
      have ih := setFields_eq fs (stmt.set i (some f)) (i + 1)
        (by rw [List.length_set]; simp only [List.length_cons] at h; omega)
      simp only [setFields]
      rw [ih]
      rw [take_set_succ stmt i (some f) hlen]
      rw [drop_set_of_lt stmt i (i + 1 + fs.length) (some f) (by omega)]
      have harith : i + 1 + fs.length = i + (f :: fs).length := by
        simp
        omega
      rw [harith]
      simp [List.append_assoc]

theorem bindNullGo_eq : ∀ (cnt j : Nat) (stmt : List (Option (List Int))),
    1 ≤ j → j - 1 + cnt ≤ stmt.length →
    bindNullGo j cnt stmt
      = stmt.take (j - 1) ++ List.replicate cnt none ++ stmt.drop (j - 1 + cnt)
  | 0, j, stmt, _, _ => by simp [bindNullGo]
  | cnt + 1, j, stmt, hj, h => by
      have hlen : j - 1 < stmt.length := by omega
      have ih := bindNullGo_eq cnt (j + 1) (stmt.set (j - 1) none) (by omega)
        (by rw [List.length_set]; omega)
      simp only [bindNullGo]
      rw [ih]
      have hj1 : j + 1 - 1 = (j - 1) + 1 := by omega
      rw [hj1]
      rw [take_set_succ stmt (j - 1) none hlen]
      rw [drop_set_of_lt stmt (j - 1) (j - 1 + 1 + cnt) none (by omega)]
      have harith : j - 1 + 1 + cnt = j - 1 + (cnt + 1) := by omega
      rw [harith]
      simp [List.append_assoc, List.replicate_succ]

/- Fields each followed by the column separator (the shape the for loop
   sees while the row continues past it). -/
def encodeSep : List (List Int) → List Int → List Int
  | [], rest => rest
  | f :: fs, rest => f ++ 44 :: encodeSep fs rest

theorem encodeRow_split : ∀ (k : Nat) (fields : List (List Int)) (rest : List Int),
    k < fields.length →
    encodeRow fields rest = encodeSep (fields.take k) (encodeRow (fields.drop k) rest)
  | 0, fields, rest, _ => by simp [encodeSep]
  | k + 1, [], rest, h => by simp at h
  | k + 1, f :: fs, rest, h => by
      cases fs with
      | nil => simp at h
      | cons g fs2 =>
          have ih := encodeRow_split k (g :: fs2) rest (by simpa using h)
          simp only [encodeRow, List.take_succ_cons, List.drop_succ_cons, encodeSep]
          rw [ih]

theorem encodeRow_length_ge : ∀ (fields : List (List Int)) (suffix : List Int),
    fields.length ≤ (encodeRow fields suffix).length
  | [], _ => by simp [encodeRow]
  | [f], s => by
      simp [encodeRow]
      omega
  | f :: g :: fs, s => by
      have ih := encodeRow_length_ge (g :: fs) s
      simp only [encodeRow, List.length_append, List.length_cons] at *
      omega

theorem addDiag_input (p : ImportCtx) (l : Int) (k : DiagKind) :
    (addDiag p l k).input = p.input := rfl

theorem addDiag_ctxOk (p : ImportCtx) (l : Int) (k : DiagKind) (h : ctxOk p) :
    ctxOk (addDiag p l k) := h

/- ---------- The for loop over one row's fields ---------- -/

theorem forPhaseGo_step (nCol : Nat) (startLine : Int) (rem i : Nat) (st : LoadState) :
    forPhaseGo .csv MODE_Csv nCol startLine (rem + 1) i st
      = (if (csv_read_one_field st.ctx).1 = none ∧ i = 0 then
           ({ st with ctx := (csv_read_one_field st.ctx).2 }, i)
         else if MODE_Csv = MODE_Ascii
             ∧ ((csv_read_one_field st.ctx).1 = none ∨ (csv_read_one_field st.ctx).1 = some [])
             ∧ i = 0 then
           ({ st with ctx := (csv_read_one_field st.ctx).2 }, i)
         else if i < nCol - 1
             ∧ (csv_read_one_field st.ctx).2.cTerm ≠ (csv_read_one_field st.ctx).2.cColSep then
           ({ st with
              ctx := addDiag (csv_read_one_field st.ctx).2 startLine (.shortRow nCol (i + 1)),
              stmt := bindNullGo (i + 2) (nCol + 1 - (i + 2))
                (st.stmt.set i (csv_read_one_field st.ctx).1) }, nCol + 2)
         else forPhaseGo .csv MODE_Csv nCol startLine rem (i + 1)
           { st with
             ctx := (csv_read_one_field st.ctx).2,
             stmt := st.stmt.set i (csv_read_one_field st.ctx).1 }) := rfl

/- Scanning fields that all end on the column separator: the for loop
   binds each one and moves on (the short-row branch cannot fire). -/
theorem forPhaseGo_sep : ∀ (fields : List (List Int)) (nCol : Nat) (startLine : Int)
    (i : Nat) (st : LoadState) (suffix : List Int),
    ctxOk st.ctx → (∀ f ∈ fields, plainField f) →
    st.ctx.input = encodeSep fields suffix →
    (forPhaseGo .csv MODE_Csv nCol startLine fields.length i st).2 = i + fields.length
    ∧ (forPhaseGo .csv MODE_Csv nCol startLine fields.length i st).1.inserted = st.inserted
    ∧ (forPhaseGo .csv MODE_Csv nCol startLine fields.length i st).1.stmt
        = setFields st.stmt i fields
    ∧ (forPhaseGo .csv MODE_Csv nCol startLine fields.length i st).1.ctx.input = suffix
    ∧ (forPhaseGo .csv MODE_Csv nCol startLine fields.length i st).1.ctx.diags = st.ctx.diags
    ∧ (forPhaseGo .csv MODE_Csv nCol startLine fields.length i st).1.ctx.nLine = st.ctx.nLine
    ∧ (fields ≠ [] →
        (forPhaseGo .csv MODE_Csv nCol startLine fields.length i st).1.ctx.cTerm = 44)
    ∧ (fields = [] →
        (forPhaseGo .csv MODE_Csv nCol startLine fields.length i st).1.ctx.cTerm = st.ctx.cTerm)
    ∧ ctxOk (forPhaseGo .csv MODE_Csv nCol startLine fields.length i st).1.ctx
  | [], nCol, startLine, i, st, suffix, hok, _, hin =>
      ⟨rfl, rfl, rfl, hin, rfl, rfl, fun h => absurd rfl h, fun _ => rfl, hok⟩
  | f :: fs, nCol, startLine, i, st, suffix, hok, hpl, hin => by
      have hr := csv_read_plain st.ctx f 44 (encodeSep fs suffix) hok
        (by simpa [encodeSep] using hin) (Or.inl rfl) (hpl f (by simp))
      have hok2 := hr.2.2.2.2.2
      have ih := forPhaseGo_sep fs nCol startLine (i + 1)
        { st with
          ctx := (csv_read_one_field st.ctx).2,
          stmt := st.stmt.set i (csv_read_one_field st.ctx).1 } suffix
        hok2 (fun x hx => hpl x (by simp [hx])) hr.2.2.1
      rw [show (f :: fs).length = fs.length + 1 from rfl]
      rw [forPhaseGo_step]
      rw [if_neg (by rw [hr.1]; simp)]
      rw [if_neg (by intro hcon; exact absurd hcon.1 (by decide))]
      rw [if_neg (by
        intro hcon
        apply hcon.2
        rw [hr.2.1, hok2.2.2.2.1])]
      refine ⟨?_, ?_, ?_, ?_, ?_, ?_, ?_, ?_, ?_⟩
      · rw [ih.1]
        omega
      · rw [ih.2.1]
      · rw [ih.2.2.1]
        dsimp only
        rw [hr.1]
        rfl
      · rw [ih.2.2.2.1]
      · rw [ih.2.2.2.2.1]
        dsimp only
        rw [hr.2.2.2.2.1]
      · rw [ih.2.2.2.2.2.1]
        dsimp only
        rw [hr.2.2.2.1]
        simp
      · intro _
        cases fs with
        | nil =>
            rw [ih.2.2.2.2.2.2.2.1 rfl]
            dsimp only
            exact hr.2.1
        | cons g gs => exact ih.2.2.2.2.2.2.1 (by simp)
      · intro h
        simp at h
      · exact ih.2.2.2.2.2.2.2.2

/- Scanning a row whose fields run out before the column count: the last
   field's row-separator terminator fires the NULL-filling branch of
   lines 400-406. -/
theorem forPhaseGo_short : ∀ (fields : List (List Int)) (nCol : Nat) (startLine : Int)
    (i : Nat) (st : LoadState) (suffix : List Int),
    ctxOk st.ctx → fields ≠ [] → (∀ f ∈ fields, plainField f) →
    st.ctx.input = encodeRow fields suffix →
    i + fields.length < nCol →
    (forPhaseGo .csv MODE_Csv nCol startLine (nCol - i) i st).2 = nCol + 2
    ∧ (forPhaseGo .csv MODE_Csv nCol startLine (nCol - i) i st).1.inserted = st.inserted
    ∧ (forPhaseGo .csv MODE_Csv nCol startLine (nCol - i) i st).1.stmt
        = bindNullGo (i + fields.length + 1) (nCol + 1 - (i + fields.length + 1))
            (setFields st.stmt i fields)
    ∧ (forPhaseGo .csv MODE_Csv nCol startLine (nCol - i) i st).1.ctx.input = suffix
    ∧ (forPhaseGo .csv MODE_Csv nCol startLine (nCol - i) i st).1.ctx.cTerm = 10
    ∧ (forPhaseGo .csv MODE_Csv nCol startLine (nCol - i) i st).1.ctx.nLine = st.ctx.nLine + 1
    ∧ (forPhaseGo .csv MODE_Csv nCol startLine (nCol - i) i st).1.ctx.diags
        = st.ctx.diags ++ [⟨startLine, .shortRow nCol (i + fields.length)⟩]
    ∧ ctxOk (forPhaseGo .csv MODE_Csv nCol startLine (nCol - i) i st).1.ctx
  | [], _, _, _, _, _, _, hne, _, _, _ => absurd rfl hne
  | [f], nCol, startLine, i, st, suffix, hok, _, hpl, hin, hcnt => by
      have hr := csv_read_plain st.ctx f 10 suffix hok (by simpa [encodeRow] using hin)
        (Or.inr rfl) (hpl f (by simp))
      have hok2 := hr.2.2.2.2.2
      have hrem : nCol - i = (nCol - i - 1) + 1 := by
        simp only [List.length_cons, List.length_nil] at hcnt
        omega
      rw [hrem, forPhaseGo_step]
      rw [if_neg (by rw [hr.1]; simp)]
      rw [if_neg (by intro hcon; exact absurd hcon.1 (by decide))]
      rw [if_pos ⟨by
          simp only [List.length_cons, List.length_nil] at hcnt
          omega,
        by rw [hr.2.1, hok2.2.2.2.1]; decide⟩]
      refine ⟨rfl, rfl, ?_, ?_, ?_, ?_, ?_, ?_⟩
      · dsimp only
        rw [hr.1]
        rfl
      · dsimp only
        rw [addDiag_input, hr.2.2.1]
      · show (addDiag (csv_read_one_field st.ctx).2 startLine
          (.shortRow nCol (i + 1))).cTerm = 10
        simp only [addDiag]
        exact hr.2.1
      · show (addDiag (csv_read_one_field st.ctx).2 startLine
          (.shortRow nCol (i + 1))).nLine = st.ctx.nLine + 1
        simp only [addDiag]
        rw [hr.2.2.2.1]
        simp
      · show (addDiag (csv_read_one_field st.ctx).2 startLine
          (.shortRow nCol (i + 1))).diags
          = st.ctx.diags ++ [⟨startLine, .shortRow nCol (i + [f].length)⟩]
        simp only [addDiag]
        rw [hr.2.2.2.2.1]
        simp
      · exact addDiag_ctxOk _ _ _ hok2
  | f :: g :: fs, nCol, startLine, i, st, suffix, hok, _, hpl, hin, hcnt => by
      have hr := csv_read_plain st.ctx f 44 (encodeRow (g :: fs) suffix) hok
        (by simpa [encodeRow] using hin) (Or.inl rfl) (hpl f (by simp))
      have hok2 := hr.2.2.2.2.2
      have hlt : i < nCol := by
        simp only [List.length_cons] at hcnt
        omega
      have ih := forPhaseGo_short (g :: fs) nCol startLine (i + 1)
        { st with
          ctx := (csv_read_one_field st.ctx).2,
          stmt := st.stmt.set i (csv_read_one_field st.ctx).1 } suffix
        hok2 (by simp) (fun x hx => hpl x (by simp [hx])) hr.2.2.1
        (by simp only [List.length_cons] at hcnt ⊢; omega)
      have hrem : nCol - i = (nCol - (i + 1)) + 1 := by omega
      rw [hrem, forPhaseGo_step]
      rw [if_neg (by rw [hr.1]; simp)]
      rw [if_neg (by intro hcon; exact absurd hcon.1 (by decide))]
      rw [if_neg (by
        intro hcon
        apply hcon.2
        rw [hr.2.1, hok2.2.2.2.1])]
      have e1 : i + 1 + (g :: fs).length = i + (f :: g :: fs).length := by
        simp only [List.length_cons]
        omega
      refine ⟨?_, ?_, ?_, ?_, ?_, ?_, ?_, ?_⟩
      · exact ih.1
      · rw [ih.2.1]
      · rw [ih.2.2.1, e1]
        dsimp only
        rw [hr.1]
        rfl
      · rw [ih.2.2.2.1]
      · exact ih.2.2.2.2.1
      · rw [ih.2.2.2.2.2.1]
        dsimp only
        rw [hr.2.2.2.1]
        simp
      · rw [ih.2.2.2.2.2.2.1, e1]
        dsimp only
        rw [hr.2.2.2.2.1]
      · exact ih.2.2.2.2.2.2.2

/- The extras-drain loop over the remaining fields of a long row. -/
theorem drainGo_step (fuel : Nat) (ctx : ImportCtx) (i : Nat) :
    drainGo .csv (fuel + 1) ctx i
      = (if (csv_read_one_field ctx).2.cTerm = (csv_read_one_field ctx).2.cColSep then
           drainGo .csv fuel (csv_read_one_field ctx).2 (i + 1)
         else ((csv_read_one_field ctx).2, i + 1)) := rfl

theorem drainGo_plain : ∀ (fields : List (List Int)) (fuel : Nat) (ctx : ImportCtx)
    (i : Nat) (suffix : List Int),
    ctxOk ctx → fields ≠ [] → (∀ f ∈ fields, plainField f) →
    ctx.input = encodeRow fields suffix → fields.length ≤ fuel →
    (drainGo .csv fuel ctx i).2 = i + fields.length
    ∧ (drainGo .csv fuel ctx i).1.input = suffix
    ∧ (drainGo .csv fuel ctx i).1.cTerm = 10
    ∧ (drainGo .csv fuel ctx i).1.nLine = ctx.nLine + 1
    ∧ (drainGo .csv fuel ctx i).1.diags = ctx.diags
    ∧ ctxOk (drainGo .csv fuel ctx i).1
  | [], _, _, _, _, _, hne, _, _, _ => absurd rfl hne
  | [f], fuel, ctx, i, suffix, hok, _, hpl, hin, hfuel => by
      have hr := csv_read_plain ctx f 10 suffix hok (by simpa [encodeRow] using hin)
        (Or.inr rfl) (hpl f (by simp))
      have hok2 := hr.2.2.2.2.2
      obtain ⟨k, rfl⟩ : ∃ k, fuel = k + 1 := by
        cases fuel with
        | zero => simp at hfuel
        | succ k => exact ⟨k, rfl⟩
      rw [drainGo_step]
      rw [if_neg (by rw [hr.2.1, hok2.2.2.2.1]; decide)]
      exact ⟨rfl, hr.2.2.1, hr.2.1, by rw [hr.2.2.2.1]; simp, hr.2.2.2.2.1, hok2⟩
  | f :: g :: fs, fuel, ctx, i, suffix, hok, _, hpl, hin, hfuel => by
      have hr := csv_read_plain ctx f 44 (encodeRow (g :: fs) suffix) hok
        (by simpa [encodeRow] using hin) (Or.inl rfl) (hpl f (by simp))
      have hok2 := hr.2.2.2.2.2
      obtain ⟨k, rfl⟩ : ∃ k, fuel = k + 1 := by
        cases fuel with
        | zero => simp at hfuel
        | succ k => exact ⟨k, rfl⟩
      have ih := drainGo_plain (g :: fs) k (csv_read_one_field ctx).2 (i + 1) suffix
        hok2 (by simp) (fun x hx => hpl x (by simp [hx])) hr.2.2.1
        (by simp only [List.length_cons] at hfuel ⊢; omega)
      rw [drainGo_step]
      rw [if_pos (by rw [hr.2.1, hok2.2.2.2.1])]
      have e1 : i + 1 + (g :: fs).length = i + (f :: g :: fs).length := by
        simp only [List.length_cons]
        omega
      refine ⟨?_, ih.2.1, ih.2.2.1, ?_, ?_, ih.2.2.2.2.2⟩
      · rw [ih.1, e1]
      · rw [ih.2.2.2.1]
        rw [hr.2.2.2.1]
        simp
      · rw [ih.2.2.2.2.1, hr.2.2.2.2.1]
/- ---------- C3 and C4 ---------- -/

/- An external sink that resolves an existing table with n columns and
   accepts every insert. -/
def dbCols (n : Nat) : DbParams :=
  { openOk := true, selectPrepare := .ok n, createOk := true, reprepare := .ok n,
    insertPrepareOk := true, autocommit := true, execOk := fun _ => true }

/-- C3: a row with fewer plain fields than the schema's column count is
NULL-filled: columns i+2..N are bound NULL, exactly one recoverable
short-row diagnostic carrying the row's starting line is emitted, and the
insert is still executed; concretely, loading row 1,2 against a 4-column
schema inserts (1,2,NULL,NULL) with one diagnostic for line 1 and overall
success. -/
theorem claim_C3_short_row_null_fill (st : LoadState) (fields : List (List Int))
    (nCol : Nat) (suffix : List Int) (execOk : Nat → Bool)
    (hok : ctxOk st.ctx) (hne : fields ≠ []) (hpl : ∀ f ∈ fields, plainField f)
    (hin : st.ctx.input = encodeRow fields suffix)
    (hlen : fields.length < nCol) (hstmt : st.stmt.length = nCol)
    (hexec : execOk st.inserted.length = true) :
    ((processOneRow .csv MODE_Csv nCol execOk st).1.inserted
        = st.inserted ++ [fields.map some ++ List.replicate (nCol - fields.length) none])
    ∧ ((processOneRow .csv MODE_Csv nCol execOk st).1.ctx.diags
        = st.ctx.diags ++ [⟨st.ctx.nLine, .shortRow nCol fields.length⟩])
    ∧ (processOneRow .csv MODE_Csv nCol execOk st).1.ctx.cTerm = 10
    ∧ (processOneRow .csv MODE_Csv nCol execOk st).1.ctx.input = suffix
    ∧ (sqlite_import (dbCols 4) [49, 44, 50, 10]).inserted
        = [[some [49], some [50], none, none]]
    ∧ (sqlite_import (dbCols 4) [49, 44, 50, 10]).diags
        = [⟨1, .shortRow 4 2⟩]
    ∧ (sqlite_import (dbCols 4) [49, 44, 50, 10]).status = 0 := by
  have hfp := forPhaseGo_short fields nCol st.ctx.nLine 0 st suffix hok hne hpl hin
    (by omega)
  simp only [Nat.sub_zero, Nat.zero_add] at hfp
  have hstmt2 : (forPhaseGo .csv MODE_Csv nCol st.ctx.nLine nCol 0 st).1.stmt
      = fields.map some ++ List.replicate (nCol - fields.length) none := by
    rw [hfp.2.2.1]
    rw [setFields_eq fields st.stmt 0 (by omega)]
    simp only [List.take_zero, List.nil_append, Nat.zero_add]
    have hlen2 : (fields.map some ++ st.stmt.drop fields.length).length = nCol := by
      simp [hstmt]
      omega
    rw [bindNullGo_eq (nCol + 1 - (fields.length + 1)) (fields.length + 1) _ (by omega)
      (by rw [hlen2]; omega)]
    have e2 : fields.length + 1 - 1 = fields.length := by omega
    have e3 : nCol + 1 - (fields.length + 1) = nCol - fields.length := by omega
    rw [e2, e3]
    have e4 : (fields.map some ++ st.stmt.drop fields.length).take fields.length
        = fields.map some := by
      rw [show fields.length = (fields.map some).length from (List.length_map _ _).symm]
      exact List.take_left _ _
    have e5 : (fields.map some ++ st.stmt.drop fields.length).drop
        (fields.length + (nCol - fields.length)) = [] := by
      apply List.drop_eq_nil_of_le
      rw [hlen2]
      omega
    rw [e4, e5]
    simp
  have hcond1 : ¬((forPhaseGo .csv MODE_Csv nCol st.ctx.nLine nCol 0 st).1.ctx.cTerm
      = (forPhaseGo .csv MODE_Csv nCol st.ctx.nLine nCol 0 st).1.ctx.cColSep) := by
    rw [hfp.2.2.2.2.1, hfp.2.2.2.2.2.2.2.2.2.2.1]
    decide
  have hcond2 : (forPhaseGo .csv MODE_Csv nCol st.ctx.nLine nCol 0 st).2 ≥ nCol := by
    rw [hfp.1]
    omega
  have hcond3 : execOk (forPhaseGo .csv MODE_Csv nCol st.ctx.nLine nCol 0 st).1.inserted.length
      = true := by
    rw [hfp.2.1]
    exact hexec
  refine ⟨?_, ?_, ?_, ?_, by decide, by decide, by decide⟩ <;>
  · simp only [processOneRow]
    rw [if_neg hcond1]
    dsimp only
    rw [if_pos hcond2]
    rw [hcond3, if_pos rfl]
    dsimp only
    simp only [hfp.2.1, hfp.2.2.2.1, hfp.2.2.2.2.1, hfp.2.2.2.2.2.2.1, hstmt2]

theorem claim_C3_witness :
    ((processOneRow .csv MODE_Csv 4 (fun _ => true)
        { ctx := allocCtx [49, 44, 50, 10], stmt := List.replicate 4 none,
          inserted := [] }).1.inserted = [[some [49], some [50], none, none]])
    ∧ ((processOneRow .csv MODE_Csv 4 (fun _ => true)
        { ctx := allocCtx [49, 44, 50, 10], stmt := List.replicate 4 none,
          inserted := [] }).1.ctx.diags = [⟨1, .shortRow 4 2⟩])
    ∧ (processOneRow .csv MODE_Csv 4 (fun _ => true)
        { ctx := allocCtx [49, 44, 50, 10], stmt := List.replicate 4 none,
          inserted := [] }).1.ctx.cTerm = 10
    ∧ (processOneRow .csv MODE_Csv 4 (fun _ => true)
        { ctx := allocCtx [49, 44, 50, 10], stmt := List.replicate 4 none,
          inserted := [] }).1.ctx.input = []
    ∧ (sqlite_import (dbCols 4) [49, 44, 50, 10]).inserted
        = [[some [49], some [50], none, none]]
    ∧ (sqlite_import (dbCols 4) [49, 44, 50, 10]).diags = [⟨1, .shortRow 4 2⟩]
    ∧ (sqlite_import (dbCols 4) [49, 44, 50, 10]).status = 0 :=
  claim_C3_short_row_null_fill
    { ctx := allocCtx [49, 44, 50, 10], stmt := List.replicate 4 none, inserted := [] }
    [[49], [50]] 4 [] (fun _ => true) (by decide) (by decide) (by decide) (by decide)
    (by decide) (by decide) (by decide)

/-- C4: a row with more plain fields than the schema's column count is
truncated: the extra fields are read and discarded until the terminator
is no longer the column separator, exactly one recoverable long-row
diagnostic is emitted whose reported found-count equals the actual number
of fields in the source row, and the row is inserted using the first N
fields; concretely, loading row 1,2,3,4,5 against a 3-column schema
inserts (1,2,3), discards 4 and 5, and emits one diagnostic with
found-count 5. -/
theorem claim_C4_long_row_extras_ignored (st : LoadState) (fields : List (List Int))
    (nCol : Nat) (suffix : List Int) (execOk : Nat → Bool)
    (hok : ctxOk st.ctx) (hpl : ∀ f ∈ fields, plainField f)
    (hin : st.ctx.input = encodeRow fields suffix)
    (hncol : 0 < nCol) (hlen : nCol < fields.length) (hstmt : st.stmt.length = nCol)
    (hexec : execOk st.inserted.length = true) :
    ((processOneRow .csv MODE_Csv nCol execOk st).1.inserted
        = st.inserted ++ [(fields.take nCol).map some])
    ∧ ((processOneRow .csv MODE_Csv nCol execOk st).1.ctx.diags
        = st.ctx.diags ++ [⟨st.ctx.nLine, .longRow nCol fields.length⟩])
    ∧ (processOneRow .csv MODE_Csv nCol execOk st).1.ctx.cTerm = 10
    ∧ (processOneRow .csv MODE_Csv nCol execOk st).1.ctx.input = suffix
    ∧ (sqlite_import (dbCols 3) [49, 44, 50, 44, 51, 44, 52, 44, 53, 10]).inserted
        = [[some [49], some [50], some [51]]]
    ∧ (sqlite_import (dbCols 3) [49, 44, 50, 44, 51, 44, 52, 44, 53, 10]).diags
        = [⟨1, .longRow 3 5⟩]
    ∧ (sqlite_import (dbCols 3) [49, 44, 50, 44, 51, 44, 52, 44, 53, 10]).status = 0 := by
  have hin2 : st.ctx.input
      = encodeSep (fields.take nCol) (encodeRow (fields.drop nCol) suffix) := by
    rw [hin, encodeRow_split nCol fields suffix (by omega)]
  have hfp := forPhaseGo_sep (fields.take nCol) nCol st.ctx.nLine 0 st
    (encodeRow (fields.drop nCol) suffix) hok
    (fun f hf => hpl f (List.mem_of_mem_take hf)) hin2
  have hlt : (fields.take nCol).length = nCol := by
    rw [List.length_take]
    rw [Nat.min_eq_left (by omega)]
  rw [hlt] at hfp
  simp only [Nat.zero_add] at hfp
  have htake_ne : fields.take nCol ≠ [] := by
    intro h
    have h2 := congrArg List.length h
    rw [hlt] at h2
    simp at h2
    omega
  have hterm := hfp.2.2.2.2.2.2.1 htake_ne
  have hokF := hfp.2.2.2.2.2.2.2.2
  have hdropne : fields.drop nCol ≠ [] := by
    intro h
    have h2 := congrArg List.length h
    simp [List.length_drop] at h2
    omega
  have hfuel : (fields.drop nCol).length
      ≤ (forPhaseGo .csv MODE_Csv nCol st.ctx.nLine nCol 0 st).1.ctx.input.length + 1 := by
    rw [hfp.2.2.2.1]
    have := encodeRow_length_ge (fields.drop nCol) suffix
    omega
  have hdr := drainGo_plain (fields.drop nCol)
    ((forPhaseGo .csv MODE_Csv nCol st.ctx.nLine nCol 0 st).1.ctx.input.length + 1)
    (forPhaseGo .csv MODE_Csv nCol st.ctx.nLine nCol 0 st).1.ctx
    (forPhaseGo .csv MODE_Csv nCol st.ctx.nLine nCol 0 st).2
    suffix hokF hdropne (fun f hf => hpl f (List.mem_of_mem_drop hf)) hfp.2.2.2.1 hfuel
  have hD2 : (drainGo .csv
      ((forPhaseGo .csv MODE_Csv nCol st.ctx.nLine nCol 0 st).1.ctx.input.length + 1)
      (forPhaseGo .csv MODE_Csv nCol st.ctx.nLine nCol 0 st).1.ctx
      (forPhaseGo .csv MODE_Csv nCol st.ctx.nLine nCol 0 st).2).2 = fields.length := by
    rw [hdr.1, hfp.1]
    simp [List.length_drop]
    omega
  have hstmt2 : (forPhaseGo .csv MODE_Csv nCol st.ctx.nLine nCol 0 st).1.stmt
      = (fields.take nCol).map some := by
    rw [hfp.2.2.1, setFields_eq (fields.take nCol) st.stmt 0 (by rw [hlt, hstmt]; omega)]
    simp only [List.take_zero, List.nil_append, Nat.zero_add]
    rw [hlt]
    rw [List.drop_eq_nil_of_le (by rw [hstmt])]
    simp
  have hcond1 : (forPhaseGo .csv MODE_Csv nCol st.ctx.nLine nCol 0 st).1.ctx.cTerm
      = (forPhaseGo .csv MODE_Csv nCol st.ctx.nLine nCol 0 st).1.ctx.cColSep := by
    rw [hterm, hokF.2.2.2.1]
  have hcond2 : (drainGo .csv
      ((forPhaseGo .csv MODE_Csv nCol st.ctx.nLine nCol 0 st).1.ctx.input.length + 1)
      (forPhaseGo .csv MODE_Csv nCol st.ctx.nLine nCol 0 st).1.ctx
      (forPhaseGo .csv MODE_Csv nCol st.ctx.nLine nCol 0 st).2).2 ≥ nCol := by
    rw [hD2]
    omega
  have hcond3 : execOk (forPhaseGo .csv MODE_Csv nCol st.ctx.nLine nCol 0 st).1.inserted.length
      = true := by
    rw [hfp.2.1]
    exact hexec
  refine ⟨?_, ?_, ?_, ?_, by decide, by decide, by decide⟩ <;>
  · simp only [processOneRow, drainPhase]
    rw [if_pos hcond1]
    dsimp only
    rw [if_pos hcond2]
    rw [hcond3, if_pos rfl]
    dsimp only
    simp only [addDiag, hfp.2.1, hstmt2, hD2, hdr.2.1, hdr.2.2.1, hdr.2.2.2.2.1,
      hfp.2.2.2.2.1]

theorem claim_C4_witness :
    ((processOneRow .csv MODE_Csv 3 (fun _ => true)
        { ctx := allocCtx [49, 44, 50, 44, 51, 44, 52, 44, 53, 10],
          stmt := List.replicate 3 none, inserted := [] }).1.inserted
        = [[some [49], some [50], some [51]]])
    ∧ ((processOneRow .csv MODE_Csv 3 (fun _ => true)
        { ctx := allocCtx [49, 44, 50, 44, 51, 44, 52, 44, 53, 10],
          stmt := List.replicate 3 none, inserted := [] }).1.ctx.diags
        = [⟨1, .longRow 3 5⟩])
    ∧ (processOneRow .csv MODE_Csv 3 (fun _ => true)
        { ctx := allocCtx [49, 44, 50, 44, 51, 44, 52, 44, 53, 10],
          stmt := List.replicate 3 none, inserted := [] }).1.ctx.cTerm = 10
    ∧ (processOneRow .csv MODE_Csv 3 (fun _ => true)
        { ctx := allocCtx [49, 44, 50, 44, 51, 44, 52, 44, 53, 10],
          stmt := List.replicate 3 none, inserted := [] }).1.ctx.input = []
    ∧ (sqlite_import (dbCols 3) [49, 44, 50, 44, 51, 44, 52, 44, 53, 10]).inserted
        = [[some [49], some [50], some [51]]]
    ∧ (sqlite_import (dbCols 3) [49, 44, 50, 44, 51, 44, 52, 44, 53, 10]).diags
        = [⟨1, .longRow 3 5⟩]
    ∧ (sqlite_import (dbCols 3) [49, 44, 50, 44, 51, 44, 52, 44, 53, 10]).status = 0 :=
  claim_C4_long_row_extras_ignored
    { ctx := allocCtx [49, 44, 50, 44, 51, 44, 52, 44, 53, 10],
      stmt := List.replicate 3 none, inserted := [] }
    [[49], [50], [51], [52], [53]] 3 [] (fun _ => true) (by decide) (by decide)
    (by decide) (by decide) (by decide) (by decide) (by decide)

/- ---------- C2: the quoted-field state machine ---------- -/

/- RFC4180 escaping: every quote character of the field value is doubled
   between the enclosing quotes. -/
def csvEscape : List Int → List Int
  | [] => []
  | b :: rest => if b = 34 then 34 :: 34 :: csvEscape rest else b :: csvEscape rest

/- The context update shared by every quoted-loop iteration: the fetched
   byte leaves the stream, and the line counter bumps on a row
   separator. -/
def pStep (b : Int) (rest : List Int) (p : ImportCtx) : ImportCtx :=
  { p with input := rest, nLine := if b = p.cRowSep then p.nLine + 1 else p.nLine }

theorem pStep_flat (b : Int) (rest : List Int) (p : ImportCtx) :
    (if b = p.cRowSep then
       ({ { p with input := rest } with nLine := ({ p with input := rest } : ImportCtx).nLine + 1 } : ImportCtx)
     else { p with input := rest })
      = pStep b rest p := by
  unfold pStep
  split <;> rfl

theorem pStep_z (b : Int) (rest : List Int) (p : ImportCtx) :
    (pStep b rest p).z = p.z := rfl

theorem pStep_n (b : Int) (rest : List Int) (p : ImportCtx) :
    (pStep b rest p).n = p.n := rfl

theorem pStep_nAlloc (b : Int) (rest : List Int) (p : ImportCtx) :
    (pStep b rest p).nAlloc = p.nAlloc := rfl

theorem pStep_diags (b : Int) (rest : List Int) (p : ImportCtx) :
    (pStep b rest p).diags = p.diags := rfl

theorem pStep_cColSep (b : Int) (rest : List Int) (p : ImportCtx) :
    (pStep b rest p).cColSep = p.cColSep := rfl

theorem pStep_cRowSep (b : Int) (rest : List Int) (p : ImportCtx) :
    (pStep b rest p).cRowSep = p.cRowSep := rfl

theorem pStep_seenInterrupt (b : Int) (rest : List Int) (p : ImportCtx) :
    (pStep b rest p).seenInterrupt = p.seenInterrupt := rfl

/- One plain iteration of the quoted loop: with no pending quote the
   fetched byte is appended (lines 185-187). -/
theorem csvQuotedGo_append (sl pc ppc b : Int) (rest : List Int) (p : ImportCtx)
    (hpc : pc ≠ 34) (hppc : ppc ≠ 34) (hb : ¬ b = -1) :
    csvQuotedGo sl pc ppc (b :: rest) p
      = csvQuotedGo sl b pc rest (import_append_char (pStep b rest p) b) := by
  have c1 : ¬(b = 34 ∧ pc = 34) := fun h => hpc h.2
  have c2 : ¬((b = (pStep b rest p).cColSep ∧ pc = 34)
      ∨ (b = (pStep b rest p).cRowSep ∧ pc = 34)
      ∨ (b = (pStep b rest p).cRowSep ∧ pc = 13 ∧ ppc = 34)
      ∨ (b = -1 ∧ pc = 34)) := by
    rintro (⟨_, h⟩ | ⟨_, h⟩ | ⟨_, _, h⟩ | ⟨_, h⟩)
    exacts [hpc h, hpc h, hppc h, hpc h]
  have c3 : ¬(pc = 34 ∧ b ≠ 13) := fun h => hpc h.1
  show (let p1 := { p with input := rest }
        let p2 := if b = p1.cRowSep then { p1 with nLine := p1.nLine + 1 } else p1
        if b = 34 ∧ pc = 34 then csvQuotedGo sl 0 ppc rest p2
        else if (b = p2.cColSep ∧ pc = 34) ∨ (b = p2.cRowSep ∧ pc = 34)
            ∨ (b = p2.cRowSep ∧ pc = 13 ∧ ppc = 34) ∨ (b = -1 ∧ pc = 34) then
          { p2 with n := backtrackToQuote p2.z 34 p2.n, cTerm := b }
        else
          let p3 := if pc = 34 ∧ b ≠ 13 then addDiag p2 p2.nLine .unescapedQuote else p2
          if b = -1 then { (addDiag p3 sl .unterminatedQuote) with cTerm := -1 }
          else csvQuotedGo sl b pc rest (import_append_char p3 b)) = _
  dsimp only
  rw [pStep_flat]
  rw [if_neg c1, if_neg c2, if_neg hb, if_neg c3]

/- The doubled-quote iteration: a second quote right after a pending one
   is swallowed and the pending marker cleared (lines 160-164). -/
theorem csvQuotedGo_double (sl ppc : Int) (rest : List Int) (p : ImportCtx) :
    csvQuotedGo sl 34 ppc (34 :: rest) p
      = csvQuotedGo sl 0 ppc rest (pStep 34 rest p) := by
  show (let p1 := { p with input := rest }
        let p2 := if (34 : Int) = p1.cRowSep then { p1 with nLine := p1.nLine + 1 } else p1
        if (34 : Int) = 34 ∧ (34 : Int) = 34 then csvQuotedGo sl 0 ppc rest p2
        else if ((34 : Int) = p2.cColSep ∧ (34 : Int) = 34)
            ∨ ((34 : Int) = p2.cRowSep ∧ (34 : Int) = 34)
            ∨ ((34 : Int) = p2.cRowSep ∧ (34 : Int) = 13 ∧ ppc = 34)
            ∨ ((34 : Int) = -1 ∧ (34 : Int) = 34) then
          { p2 with n := backtrackToQuote p2.z 34 p2.n, cTerm := 34 }
        else
          let p3 := if (34 : Int) = 34 ∧ (34 : Int) ≠ 13 then
            addDiag p2 p2.nLine .unescapedQuote else p2
          if (34 : Int) = -1 then { (addDiag p3 sl .unterminatedQuote) with cTerm := -1 }
          else csvQuotedGo sl 34 34 rest (import_append_char p3 34)) = _
  dsimp only
  rw [pStep_flat]
  rw [if_pos ⟨rfl, rfl⟩]

/- The closing iteration: a separator right after a pending quote ends
   the field; the buffer backtracks over the closing quote (lines
   166-173). -/
theorem csvQuotedGo_close (sl ppc t : Int) (rest : List Int) (p : ImportCtx)
    (hcs : p.cColSep = 44) (hrs : p.cRowSep = 10) (ht : t = 44 ∨ t = 10) :
    csvQuotedGo sl 34 ppc (t :: rest) p
      = { pStep t rest p with n := backtrackToQuote p.z 34 p.n, cTerm := t } := by
  have c1 : ¬(t = 34 ∧ (34 : Int) = 34) := by
    rintro ⟨h, _⟩
    rcases ht with h2 | h2 <;> rw [h2] at h <;> exact absurd h (by decide)
  have c2 : (t = (pStep t rest p).cColSep ∧ (34 : Int) = 34)
      ∨ (t = (pStep t rest p).cRowSep ∧ (34 : Int) = 34)
      ∨ (t = (pStep t rest p).cRowSep ∧ (34 : Int) = 13 ∧ ppc = 34)
      ∨ (t = -1 ∧ (34 : Int) = 34) := by
    rcases ht with h2 | h2
    · exact Or.inl ⟨by rw [pStep_cColSep, hcs, h2], rfl⟩
    · exact Or.inr (Or.inl ⟨by rw [pStep_cRowSep, hrs, h2], rfl⟩)
  show (let p1 := { p with input := rest }
        let p2 := if t = p1.cRowSep then { p1 with nLine := p1.nLine + 1 } else p1
        if t = 34 ∧ (34 : Int) = 34 then csvQuotedGo sl 0 ppc rest p2
        else if (t = p2.cColSep ∧ (34 : Int) = 34) ∨ (t = p2.cRowSep ∧ (34 : Int) = 34)
            ∨ (t = p2.cRowSep ∧ (34 : Int) = 13 ∧ ppc = 34)
            ∨ (t = -1 ∧ (34 : Int) = 34) then
          { p2 with n := backtrackToQuote p2.z 34 p2.n, cTerm := t }
        else
          let p3 := if (34 : Int) = 34 ∧ t ≠ 13 then addDiag p2 p2.nLine .unescapedQuote
            else p2
          if t = -1 then { (addDiag p3 sl .unterminatedQuote) with cTerm := -1 }
          else csvQuotedGo sl t 34 rest (import_append_char p3 t)) = _
  dsimp only
  rw [pStep_flat]
  rw [if_neg c1, if_pos c2, pStep_z, pStep_n]

theorem csvEscape_cons_ne (b : Int) (v : List Int) (h : ¬ b = 34) :
    csvEscape (b :: v) = b :: csvEscape v := by
  show (if b = 34 then 34 :: 34 :: csvEscape v else b :: csvEscape v) = b :: csvEscape v
  rw [if_neg h]

theorem csvEscape_cons_quote (v : List Int) :
    csvEscape (34 :: v) = 34 :: 34 :: csvEscape v := by
  show (if (34 : Int) = 34 then 34 :: 34 :: csvEscape v else 34 :: csvEscape v)
    = 34 :: 34 :: csvEscape v
  rw [if_pos rfl]

theorem pStep_bufInv (b : Int) (rest : List Int) (p : ImportCtx) (h : bufInv p) :
    bufInv (pStep b rest p) := by
  unfold bufInv
  rw [pStep_z, pStep_n, pStep_nAlloc]
  exact h

theorem pStep_nLine_ne (b : Int) (rest : List Int) (p : ImportCtx) (h : ¬ b = p.cRowSep) :
    (pStep b rest p).nLine = p.nLine := by
  unfold pStep
  dsimp only
  rw [if_neg h]

theorem pStep_nLine_eq (b : Int) (rest : List Int) (p : ImportCtx) (h : b = p.cRowSep) :
    (pStep b rest p).nLine = p.nLine + 1 := by
  unfold pStep
  dsimp only
  rw [if_pos h]

/- What the quoted loop guarantees when fed the escaped body of a value
   followed by the closing quote and a separator. -/
def scanOut (p R : ImportCtx) (v : List Int) (t : Int) (rest : List Int) : Prop :=
  R.cTerm = t ∧ R.input = rest ∧ R.diags = p.diags
  ∧ R.n = p.n + v.length
  ∧ R.z.take R.n = p.z.take p.n ++ v
  ∧ R.z.length = R.nAlloc ∧ R.nAlloc ≠ 0 ∧ R.n < R.nAlloc
  ∧ R.nLine = p.nLine + (v.count 10 : Int) + (if t = 10 then 1 else 0)
  ∧ R.cColSep = p.cColSep ∧ R.cRowSep = p.cRowSep ∧ R.seenInterrupt = p.seenInterrupt

/- The quoted loop consumes the doubled-quote encoding of v, the closing
   quote and the terminator, appending exactly v to the buffer: doubled
   quotes collapse to one, embedded separators and newlines stay inside
   the field, and the line counter advances once per embedded newline
   (lines 156-188). -/
theorem csvQuotedGo_escape :
    ∀ (v : List Int) (sl pc ppc t : Int) (rest : List Int) (p : ImportCtx),
    bufInv p → p.cColSep = 44 → p.cRowSep = 10 →
    (∀ b ∈ v, ¬ b = -1) → pc ≠ 34 → ppc ≠ 34 → (t = 44 ∨ t = 10) →
    scanOut p (csvQuotedGo sl pc ppc (csvEscape v ++ 34 :: t :: rest) p) v t rest
  | [], sl, pc, ppc, t, rest, p, hbuf, hcs, hrs, _, hpc, hppc, ht => by
      rw [show csvEscape [] ++ 34 :: t :: rest = 34 :: t :: rest from rfl]
      rw [csvQuotedGo_append sl pc ppc 34 (t :: rest) p hpc hppc (by decide)]
      set q := import_append_char (pStep 34 (t :: rest) p) 34 with hq
      have hqcs : q.cColSep = 44 := by rw [hq, app_cColSep, pStep_cColSep, hcs]
      have hqrs : q.cRowSep = 10 := by rw [hq, app_cRowSep, pStep_cRowSep, hrs]
      rw [csvQuotedGo_close sl pc t rest q hqcs hqrs ht]
      have hpbuf : bufInv (pStep 34 (t :: rest) p) := pStep_bufInv _ _ _ hbuf
      have hqbuf : bufInv q := app_bufInv _ 34 hpbuf
      have hqn : q.n = p.n + 1 := by rw [hq, app_n, pStep_n]
      have hqtake : q.z.take q.n = p.z.take p.n ++ [34] := by
        have h1 := app_take (pStep 34 (t :: rest) p) 34 hpbuf
        rw [pStep_z, pStep_n] at h1
        rw [hq]
        exact h1
      have hql : q.z.length = q.nAlloc := hqbuf.1
      have hqne : q.nAlloc ≠ 0 := by rw [hq]; exact app_nAlloc_ne _ 34
      have hqlt : q.n < q.nAlloc := by
        rcases hqbuf.2 with h | ⟨h1, _⟩
        · exact h
        · rw [hqn] at h1; omega
      have hgd : q.z.getD p.n 256 = 34 := by
        have h2 := getD_concat_of_take q.z (p.z.take p.n) q.n 34 hqtake (by omega)
        rwa [hqn, Nat.add_sub_cancel] at h2
      have hbt : backtrackToQuote q.z 34 q.n = p.n := by
        rw [hqn]
        show (if q.z.getD p.n 256 = 34 then p.n else backtrackToQuote q.z 34 p.n) = p.n
        rw [if_pos hgd]
      have hpn_le : p.n ≤ p.z.length := by
        rcases hbuf.2 with h | ⟨h1, _⟩
        · rw [hbuf.1]; omega
        · omega
      have hRtake : q.z.take p.n = p.z.take p.n := by
        have h2 : (q.z.take q.n).take p.n = q.z.take p.n := by
          rw [List.take_take, hqn, Nat.min_eq_left (by omega)]
        rw [← h2, hqtake, List.take_append_of_le_length (by simp [List.length_take]; omega)]
        rw [List.take_take, Nat.min_self]
      have hqnl : q.nLine = p.nLine := by
        rw [hq, app_nLine, pStep_nLine_ne _ _ _ (by rw [hrs]; decide)]
      refine ⟨rfl, rfl, ?_, ?_, ?_, ?_, ?_, ?_, ?_, ?_, ?_, ?_⟩
      · show (pStep t rest q).diags = p.diags
        rw [pStep_diags, hq, app_diags, pStep_diags]
      · show backtrackToQuote q.z 34 q.n = p.n + ([] : List Int).length
        rw [hbt]
        simp
      · show (pStep t rest q).z.take (backtrackToQuote q.z 34 q.n) = p.z.take p.n ++ []
        rw [pStep_z, hbt, hRtake, List.append_nil]
      · show (pStep t rest q).z.length = (pStep t rest q).nAlloc
        rw [pStep_z, pStep_nAlloc]
        exact hql
      · show (pStep t rest q).nAlloc ≠ 0
        rw [pStep_nAlloc]
        exact hqne
      · show backtrackToQuote q.z 34 q.n < (pStep t rest q).nAlloc
        rw [hbt, pStep_nAlloc]
        omega
      · show (pStep t rest q).nLine
            = p.nLine + (([] : List Int).count 10 : Int) + (if t = 10 then 1 else 0)
        rcases ht with ht' | ht'
        · rw [pStep_nLine_ne _ _ _ (by rw [hqrs, ht']; decide), hqnl, ht']
          simp
        · rw [pStep_nLine_eq _ _ _ (by rw [hqrs, ht']), hqnl, ht']
          simp
      · show (pStep t rest q).cColSep = p.cColSep
        rw [pStep_cColSep, hqcs, hcs]
      · show (pStep t rest q).cRowSep = p.cRowSep
        rw [pStep_cRowSep, hqrs, hrs]
      · show (pStep t rest q).seenInterrupt = p.seenInterrupt
        rw [pStep_seenInterrupt, hq, app_seenInterrupt, pStep_seenInterrupt]
  | b :: v', sl, pc, ppc, t, rest, p, hbuf, hcs, hrs, hv, hpc, hppc, ht => by
      by_cases hb34 : b = (34 : Int)
      · subst hb34
        rw [show csvEscape (34 :: v') ++ 34 :: t :: rest
              = 34 :: (34 :: (csvEscape v' ++ 34 :: t :: rest)) from by
            rw [csvEscape_cons_quote v']
            rfl]
        rw [csvQuotedGo_append sl pc ppc 34 _ p hpc hppc (by decide)]
        set p1 := pStep 34 (34 :: (csvEscape v' ++ 34 :: t :: rest)) p with hp1
        set q1 := import_append_char p1 34 with hq1
        rw [csvQuotedGo_double sl pc (csvEscape v' ++ 34 :: t :: rest) q1]
        set q2 := pStep 34 (csvEscape v' ++ 34 :: t :: rest) q1 with hq2
        have hp1buf : bufInv p1 := pStep_bufInv _ _ _ hbuf
        have hq1buf : bufInv q1 := app_bufInv _ 34 hp1buf
        have hq2buf : bufInv q2 := pStep_bufInv _ _ _ hq1buf
        have hq2cs : q2.cColSep = 44 := by
          rw [hq2, pStep_cColSep, hq1, app_cColSep, hp1, pStep_cColSep, hcs]
        have hq2rs : q2.cRowSep = 10 := by
          rw [hq2, pStep_cRowSep, hq1, app_cRowSep, hp1, pStep_cRowSep, hrs]
        have ih := csvQuotedGo_escape v' sl 0 pc t rest q2 hq2buf hq2cs hq2rs
          (fun x hx => hv x (by simp [hx])) (by decide) hpc ht
        obtain ⟨i1, i2, i3, i4, i5, i6, i7, i8, i9, i10, i11, i12⟩ := ih
        have hq2n : q2.n = p.n + 1 := by
          rw [hq2, pStep_n, hq1, app_n, hp1, pStep_n]
        have hq2take : q2.z.take q2.n = p.z.take p.n ++ [34] := by
          have h1 := app_take p1 34 hp1buf
          rw [hp1, pStep_z, pStep_n] at h1
          rw [hq2, pStep_z, pStep_n, hq1]
          exact h1
        have hq2diags : q2.diags = p.diags := by
          rw [hq2, pStep_diags, hq1, app_diags, hp1, pStep_diags]
        have hq2nl : q2.nLine = p.nLine := by
          have h1 : q1.cRowSep = 10 := by
            rw [hq1, app_cRowSep, hp1, pStep_cRowSep, hrs]
          rw [hq2, pStep_nLine_ne _ _ _ (by rw [h1]; decide), hq1, app_nLine, hp1,
            pStep_nLine_ne _ _ _ (by rw [hrs]; decide)]
        refine ⟨i1, i2, ?_, ?_, ?_, i6, i7, i8, ?_, ?_, ?_, ?_⟩
        · rw [i3, hq2diags]
        · rw [i4, hq2n, List.length_cons]
          omega
        · rw [i5, hq2take, List.append_assoc, List.singleton_append]
        · rw [i9, hq2nl, List.count_cons_of_ne (by decide)]
        · rw [i10, hq2cs, hcs]
        · rw [i11, hq2rs, hrs]
        · rw [i12, hq2, pStep_seenInterrupt, hq1, app_seenInterrupt, hp1, pStep_seenInterrupt]
      · rw [show csvEscape (b :: v') ++ 34 :: t :: rest
              = b :: (csvEscape v' ++ 34 :: t :: rest) from by
            rw [csvEscape_cons_ne b v' hb34]
            rfl]
        have hbne : ¬ b = -1 := hv b (by simp)
        rw [csvQuotedGo_append sl pc ppc b _ p hpc hppc hbne]
        set p' := pStep b (csvEscape v' ++ 34 :: t :: rest) p with hp'
        set q := import_append_char p' b with hq
        have hp'buf : bufInv p' := pStep_bufInv _ _ _ hbuf
        have hqbuf : bufInv q := app_bufInv _ b hp'buf
        have hqcs : q.cColSep = 44 := by
          rw [hq, app_cColSep, hp', pStep_cColSep, hcs]
        have hqrs : q.cRowSep = 10 := by
          rw [hq, app_cRowSep, hp', pStep_cRowSep, hrs]
        have ih := csvQuotedGo_escape v' sl b pc t rest q hqbuf hqcs hqrs
          (fun x hx => hv x (by simp [hx])) hb34 hpc ht
        obtain ⟨i1, i2, i3, i4, i5, i6, i7, i8, i9, i10, i11, i12⟩ := ih
        have hqn : q.n = p.n + 1 := by rw [hq, app_n, hp', pStep_n]
        have hqtake : q.z.take q.n = p.z.take p.n ++ [b] := by
          have h1 := app_take p' b hp'buf
          rw [hp', pStep_z, pStep_n] at h1
          rw [hq]
          exact h1
        have hqdiags : q.diags = p.diags := by
          rw [hq, app_diags, hp', pStep_diags]
        refine ⟨i1, i2, ?_, ?_, ?_, i6, i7, i8, ?_, ?_, ?_, ?_⟩
        · rw [i3, hqdiags]
        · rw [i4, hqn, List.length_cons]
          omega
        · rw [i5, hqtake, List.append_assoc, List.singleton_append]
        · by_cases hb10 : b = (10 : Int)
          · have hqnl : q.nLine = p.nLine + 1 := by
              rw [hq, app_nLine, hp', pStep_nLine_eq _ _ _ (by rw [hrs, hb10])]
            rw [i9, hqnl, hb10, List.count_cons_self]
            push_cast
            ring
          · have hqnl : q.nLine = p.nLine := by
              rw [hq, app_nLine, hp', pStep_nLine_ne _ _ _ (by rw [hrs]; exact hb10)]
            rw [i9, hqnl, List.count_cons_of_ne (Ne.symm hb10)]
        · rw [i10, hqcs, hcs]
        · rw [i11, hqrs, hrs]
        · rw [i12, hq, app_seenInterrupt, hp', pStep_seenInterrupt]

/-- C2: a quoted CSV field parses to its content with the enclosing quotes
excluded and every doubled quote collapsed to one literal quote; embedded
column separators and row separators stay inside the single field value.
In particular the input "a,b\nc""d" yields the one field value a,b\nc"d
(followed there by end of stream), not several fields. -/
theorem claim_C2_quoted_field (p : ImportCtx) (v : List Int) (t : Int) (rest : List Int)
    (hok : ctxOk p)
    (hv : ∀ b ∈ v, ¬ b = -1 ∧ b ≠ 0)
    (ht : t = 44 ∨ t = 10)
    (hin : p.input = 34 :: (csvEscape v ++ 34 :: t :: rest)) :
    ((csv_read_one_field p).1 = some v
      ∧ (csv_read_one_field p).2.cTerm = t
      ∧ (csv_read_one_field p).2.input = rest
      ∧ (csv_read_one_field p).2.diags = p.diags)
    ∧ (csv_read_one_field (allocCtx [34, 97, 44, 98, 10, 99, 34, 34, 100, 34])).1
        = some [97, 44, 98, 10, 99, 34, 100]
    ∧ (csv_read_one_field (allocCtx [34, 97, 44, 98, 10, 99, 34, 34, 100, 34])).2.cTerm
        = -1
    ∧ (csv_read_one_field (allocCtx [34, 97, 44, 98, 10, 99, 34, 34, 100, 34])).2.input
        = [] := by
  obtain ⟨hbuf, hna, hsi, hcs, hrs⟩ := hok
  refine ⟨?_, by decide, by decide, by decide⟩
  rw [csv_read_one_field_cons p 34 (csvEscape v ++ 34 :: t :: rest) hin (by decide) hsi]
  dsimp only
  rw [if_pos rfl]
  set p1 : ImportCtx := { p with n := 0, input := csvEscape v ++ 34 :: t :: rest } with hp1
  set R := csvQuotedGo p1.nLine 0 0 (csvEscape v ++ 34 :: t :: rest) p1 with hR
  have hp1buf : bufInv p1 := by
    constructor
    · exact hbuf.1
    · left
      exact Nat.pos_of_ne_zero hna
  have hsc := csvQuotedGo_escape v p1.nLine 0 0 t rest p1 hp1buf hcs hrs
    (fun b hb => (hv b hb).1) (by decide) (by decide) ht
  rw [← hR] at hsc
  obtain ⟨s1, s2, s3, s4, s5, s6, s7, s8, s9, s10, s11, s12⟩ := hsc
  have hset : (if R.nAlloc ≠ 0 then ({ R with z := R.z.set R.n 0 } : ImportCtx) else R)
      = { R with z := R.z.set R.n 0 } := if_pos s7
  rw [hset]
  have htk : R.z.take R.n = v := by
    rw [s5]
    show p.z.take 0 ++ v = v
    rw [List.take_zero, List.nil_append]
  have hcstr : cstr (R.z.set R.n 0) = v :=
    cstr_set_take R.z R.n v (by rw [s6]; exact s8) htk (fun b hb => (hv b hb).2)
  refine ⟨?_, s1, s2, ?_⟩
  · rw [if_pos s7]
    rw [hcstr]
  · show R.diags = p.diags
    exact s3

theorem claim_C2_witness :
    (((csv_read_one_field (allocCtx [34, 97, 44, 98, 10, 99, 34, 34, 100, 34, 10])).1
        = some [97, 44, 98, 10, 99, 34, 100]
      ∧ (csv_read_one_field (allocCtx [34, 97, 44, 98, 10, 99, 34, 34, 100, 34, 10])).2.cTerm
          = 10
      ∧ (csv_read_one_field (allocCtx [34, 97, 44, 98, 10, 99, 34, 34, 100, 34, 10])).2.input
          = []
      ∧ (csv_read_one_field (allocCtx [34, 97, 44, 98, 10, 99, 34, 34, 100, 34, 10])).2.diags
          = (allocCtx [34, 97, 44, 98, 10, 99, 34, 34, 100, 34, 10]).diags)
      ∧ (csv_read_one_field (allocCtx [34, 97, 44, 98, 10, 99, 34, 34, 100, 34])).1
          = some [97, 44, 98, 10, 99, 34, 100]
      ∧ (csv_read_one_field (allocCtx [34, 97, 44, 98, 10, 99, 34, 34, 100, 34])).2.cTerm
          = -1
      ∧ (csv_read_one_field (allocCtx [34, 97, 44, 98, 10, 99, 34, 34, 100, 34])).2.input
          = []) :=
  claim_C2_quoted_field (allocCtx [34, 97, 44, 98, 10, 99, 34, 34, 100, 34, 10])
    [97, 44, 98, 10, 99, 34, 100] 10 [] (by decide) (by decide) (by decide) (by decide)

/- ---------- C9 amended: buffer invariants of the field readers ---------- -/

instance (p : ImportCtx) : Decidable (bufInv p) := by
  unfold bufInv
  infer_instance

theorem bt_le (z : List Int) (q : Int) : ∀ n, backtrackToQuote z q n ≤ n
  | 0 => Nat.le_refl 0
  | n + 1 => by
      show (if z.getD n 256 = q then n else backtrackToQuote z q n) ≤ n + 1
      split
      · omega
      · have h := bt_le z q n
        omega

theorem csvQuotedGo_nil_eq (sl pc ppc : Int) (p : ImportCtx) :
    csvQuotedGo sl pc ppc [] p
      = (let p2 := if (-1 : Int) = p.cRowSep then { p with nLine := p.nLine + 1 } else p
         if ((-1 : Int) = p2.cColSep ∧ pc = 34) ∨ ((-1 : Int) = p2.cRowSep ∧ pc = 34)
             ∨ ((-1 : Int) = p2.cRowSep ∧ pc = 13 ∧ ppc = 34) ∨ pc = 34 then
           { p2 with n := backtrackToQuote p2.z 34 p2.n, cTerm := -1 }
         else
           let p3 := if pc = 34 ∧ ((-1 : Int) ≠ 13) then addDiag p2 p2.nLine .unescapedQuote
             else p2
           { (addDiag p3 sl .unterminatedQuote) with cTerm := -1 }) := rfl

theorem csvQuotedGo_cons_eq (sl pc ppc c : Int) (rest : List Int) (p : ImportCtx) :
    csvQuotedGo sl pc ppc (c :: rest) p
      = (let p1 := { p with input := rest }
         let p2 := if c = p1.cRowSep then { p1 with nLine := p1.nLine + 1 } else p1
         if c = 34 ∧ pc = 34 then csvQuotedGo sl 0 ppc rest p2
         else if (c = p2.cColSep ∧ pc = 34) ∨ (c = p2.cRowSep ∧ pc = 34)
             ∨ (c = p2.cRowSep ∧ pc = 13 ∧ ppc = 34) ∨ (c = -1 ∧ pc = 34) then
           { p2 with n := backtrackToQuote p2.z 34 p2.n, cTerm := c }
         else
           let p3 := if pc = 34 ∧ c ≠ 13 then addDiag p2 p2.nLine .unescapedQuote else p2
           if c = -1 then { (addDiag p3 sl .unterminatedQuote) with cTerm := -1 }
           else csvQuotedGo sl c pc rest (import_append_char p3 c)) := rfl

theorem quotedGo_bufInv : ∀ (inp : List Int) (sl pc ppc : Int) (p : ImportCtx),
    bufInv p → bufInv (csvQuotedGo sl pc ppc inp p)
  | [], sl, pc, ppc, p, h => by
      rw [csvQuotedGo_nil_eq]
      dsimp only
      have hp2 : bufInv (if (-1 : Int) = p.cRowSep
          then ({ p with nLine := p.nLine + 1 } : ImportCtx) else p) := by
        split <;> exact h
      revert hp2
      generalize (if (-1 : Int) = p.cRowSep
          then ({ p with nLine := p.nLine + 1 } : ImportCtx) else p) = q
      intro hq
      split
      · refine ⟨hq.1, ?_⟩
        show backtrackToQuote q.z 34 q.n < q.nAlloc
          ∨ (backtrackToQuote q.z 34 q.n = 0 ∧ q.nAlloc = 0)
        have hle := bt_le q.z 34 q.n
        have h2 := hq.2
        omega
      · have hp3 : bufInv (if pc = 34 ∧ ((-1 : Int) ≠ 13)
            then addDiag q q.nLine .unescapedQuote else q) := by
          split <;> exact hq
        exact hp3
  | c :: rest, sl, pc, ppc, p, h => by
      rw [csvQuotedGo_cons_eq]
      dsimp only
      have hp2 : bufInv (if c = p.cRowSep
          then ({ p with input := rest, nLine := p.nLine + 1 } : ImportCtx)
          else { p with input := rest }) := by
        split <;> exact h
      revert hp2
      generalize (if c = p.cRowSep
          then ({ p with input := rest, nLine := p.nLine + 1 } : ImportCtx)
          else { p with input := rest }) = q
      intro hq
      split
      · exact quotedGo_bufInv rest sl 0 ppc q hq
      · split
        · refine ⟨hq.1, ?_⟩
          show backtrackToQuote q.z 34 q.n < q.nAlloc
            ∨ (backtrackToQuote q.z 34 q.n = 0 ∧ q.nAlloc = 0)
          have hle := bt_le q.z 34 q.n
          have h2 := hq.2
          omega
        · have hp3 : bufInv (if pc = 34 ∧ c ≠ 13
              then addDiag q q.nLine .unescapedQuote else q) := by
            split <;> exact hq
          revert hp3
          generalize (if pc = 34 ∧ c ≠ 13
              then addDiag q q.nLine .unescapedQuote else q) = q3
          intro hq3
          split
          · exact hq3
          · exact quotedGo_bufInv rest sl c pc _ (app_bufInv q3 c hq3)

theorem unquotedFinish_bufInv (c : Int) (p : ImportCtx) (h : bufInv p) :
    bufInv (csvUnquotedFinish c p) := by
  unfold csvUnquotedFinish
  dsimp only
  split
  · split
    · refine ⟨h.1, ?_⟩
      show p.n - 1 < p.nAlloc ∨ (p.n - 1 = 0 ∧ p.nAlloc = 0)
      have h2 := h.2
      omega
    · exact h
  · exact h

theorem unquotedGo_bufInv : ∀ (inp : List Int) (c : Int) (p : ImportCtx),
    bufInv p → bufInv (csvUnquotedGo c inp p)
  | [], c, p, h => by
      show bufInv (if c = -1 ∨ c = p.cColSep ∨ c = p.cRowSep then csvUnquotedFinish c p
        else csvUnquotedFinish (-1) (import_append_char p c))
      split
      · exact unquotedFinish_bufInv c p h
      · exact unquotedFinish_bufInv (-1) _ (app_bufInv p c h)
  | b :: rest, c, p, h => by
      show bufInv (if c = -1 ∨ c = p.cColSep ∨ c = p.cRowSep then csvUnquotedFinish c p
        else csvUnquotedGo b rest (import_append_char { p with input := rest } c))
      split
      · exact unquotedFinish_bufInv c p h
      · exact unquotedGo_bufInv rest b _ (app_bufInv { p with input := rest } c h)

theorem asciiFinish_bufInv (c : Int) (p : ImportCtx) (h : bufInv p) :
    bufInv (asciiFinish c p) := by
  unfold asciiFinish
  dsimp only
  split
  · exact h
  · exact h

theorem asciiGo_bufInv : ∀ (inp : List Int) (c : Int) (p : ImportCtx),
    bufInv p → bufInv (asciiGo c inp p)
  | [], c, p, h => by
      show bufInv (if c = -1 ∨ c = p.cColSep ∨ c = p.cRowSep then asciiFinish c p
        else asciiFinish (-1) (import_append_char p c))
      split
      · exact asciiFinish_bufInv c p h
      · exact asciiFinish_bufInv (-1) _ (app_bufInv p c h)
  | b :: rest, c, p, h => by
      show bufInv (if c = -1 ∨ c = p.cColSep ∨ c = p.cRowSep then asciiFinish c p
        else asciiGo b rest (import_append_char { p with input := rest } c))
      split
      · exact asciiFinish_bufInv c p h
      · exact asciiGo_bufInv rest b _ (app_bufInv { p with input := rest } c h)

/- Reducing the two readers on an empty stream and on a stopping first
   fetch, for arbitrary contexts. -/
theorem csv_read_nil (p0 : ImportCtx) (h : p0.input = []) :
    csv_read_one_field p0 = (none, { p0 with n := 0, cTerm := -1 }) := by
  unfold csv_read_one_field
  dsimp only
  rw [h]

theorem csv_read_stop (p0 : ImportCtx) (c : Int) (rest : List Int)
    (h : p0.input = c :: rest)
    (hs : c = -1 ∨ p0.seenInterrupt = true) :
    csv_read_one_field p0 = (none, { p0 with n := 0, input := rest, cTerm := -1 }) := by
  unfold csv_read_one_field
  dsimp only
  rw [h]
  dsimp only
  rw [if_pos hs]

theorem ascii_read_nil (p0 : ImportCtx) (h : p0.input = []) :
    ascii_read_one_field p0 = (none, { p0 with n := 0, cTerm := -1 }) := by
  unfold ascii_read_one_field
  dsimp only
  rw [h]

theorem ascii_read_stop (p0 : ImportCtx) (c : Int) (rest : List Int)
    (h : p0.input = c :: rest)
    (hs : c = -1 ∨ p0.seenInterrupt = true) :
    ascii_read_one_field p0 = (none, { p0 with n := 0, input := rest, cTerm := -1 }) := by
  unfold ascii_read_one_field
  dsimp only
  rw [h]
  dsimp only
  rw [if_pos hs]

theorem ascii_read_go (p0 : ImportCtx) (c : Int) (rest : List Int)
    (h : p0.input = c :: rest)
    (hs : ¬(c = -1 ∨ p0.seenInterrupt = true)) :
    ascii_read_one_field p0 =
      (let p1 : ImportCtx := { p0 with n := 0, input := rest }
       let p2 := asciiGo c rest p1
       let p3 := if p2.nAlloc ≠ 0 then { p2 with z := p2.z.set p2.n 0 } else p2
       (if p3.nAlloc ≠ 0 then some (cstr p3.z) else none, p3)) := by
  unfold ascii_read_one_field
  dsimp only
  rw [h]
  dsimp only
  rw [if_neg hs]

theorem csv_read_go (p0 : ImportCtx) (c : Int) (rest : List Int)
    (h : p0.input = c :: rest)
    (hs : ¬(c = -1 ∨ p0.seenInterrupt = true)) :
    csv_read_one_field p0 =
      (let p1 : ImportCtx := { p0 with n := 0, input := rest }
       let p2 := if c = 34 then csvQuotedGo p1.nLine 0 0 rest p1 else csvUnquotedGo c rest p1
       let p3 := if p2.nAlloc ≠ 0 then { p2 with z := p2.z.set p2.n 0 } else p2
       (if p3.nAlloc ≠ 0 then some (cstr p3.z) else none, p3)) := by
  unfold csv_read_one_field
  dsimp only
  rw [h]
  dsimp only
  rw [if_neg hs]

/- The shared tail of both readers: the NUL write of lines 200/235 and
   the return value. -/
theorem read_tail_ok (q : ImportCtx) (hq : bufInv q) :
    bufInv (let p3 := if q.nAlloc ≠ 0 then ({ q with z := q.z.set q.n 0 } : ImportCtx) else q
      ((if p3.nAlloc ≠ 0 then some (cstr p3.z) else none, p3) :
        Option (List Int) × ImportCtx)).2
    ∧ (let p3 := if q.nAlloc ≠ 0 then ({ q with z := q.z.set q.n 0 } : ImportCtx) else q
      ((if p3.nAlloc ≠ 0 then some (cstr p3.z) else none, p3) :
        Option (List Int) × ImportCtx)).2.n
      ≤ (let p3 := if q.nAlloc ≠ 0 then ({ q with z := q.z.set q.n 0 } : ImportCtx) else q
      ((if p3.nAlloc ≠ 0 then some (cstr p3.z) else none, p3) :
        Option (List Int) × ImportCtx)).2.nAlloc
    ∧ ((let p3 := if q.nAlloc ≠ 0 then ({ q with z := q.z.set q.n 0 } : ImportCtx) else q
      ((if p3.nAlloc ≠ 0 then some (cstr p3.z) else none, p3) :
        Option (List Int) × ImportCtx)).1 ≠ none →
      (let p3 := if q.nAlloc ≠ 0 then ({ q with z := q.z.set q.n 0 } : ImportCtx) else q
      ((if p3.nAlloc ≠ 0 then some (cstr p3.z) else none, p3) :
        Option (List Int) × ImportCtx)).2.z.getD
        (let p3 := if q.nAlloc ≠ 0 then ({ q with z := q.z.set q.n 0 } : ImportCtx) else q
        ((if p3.nAlloc ≠ 0 then some (cstr p3.z) else none, p3) :
          Option (List Int) × ImportCtx)).2.n 256 = 0) := by
  dsimp only
  by_cases hna : q.nAlloc ≠ 0
  · rw [if_pos hna]
    have hlt : q.n < q.nAlloc := by
      have h2 := hq.2
      omega
    refine ⟨⟨?_, ?_⟩, ?_, ?_⟩
    · show (q.z.set q.n 0).length = q.nAlloc
      rw [List.length_set]
      exact hq.1
    · show q.n < q.nAlloc ∨ (q.n = 0 ∧ q.nAlloc = 0)
      exact Or.inl hlt
    · show q.n ≤ q.nAlloc
      omega
    · intro _
      show (q.z.set q.n 0).getD q.n 256 = 0
      exact getD_set_self q.z q.n 0 256 (by rw [hq.1]; exact hlt)
  · rw [if_neg hna]
    refine ⟨hq, ?_, ?_⟩
    · show q.n ≤ q.nAlloc
      have h2 := hq.2
      omega
    · intro hv
      exact absurd (if_neg hna) hv

/-- C9 (amended): buffer growth in import_append_char is geometric doubling
plus a constant (nAlloc becomes 2*nAlloc+100), and after every field read
n ≤ nAlloc holds with the buffer invariant preserved; the buffer is
null-terminated at index n whenever the read returns a non-NULL pointer,
but on the early-return end-of-stream path (which returns NULL) n is reset
to 0 with the buffer contents untouched, so z[n] need not be NUL there. -/
theorem claim_C9_amended :
    (∀ (p : ImportCtx) (c : Int), p.n + 1 ≥ p.nAlloc →
      (import_append_char p c).nAlloc = 2 * p.nAlloc + 100)
    ∧ (∀ p : ImportCtx, bufInv p →
        bufInv (csv_read_one_field p).2
        ∧ (csv_read_one_field p).2.n ≤ (csv_read_one_field p).2.nAlloc
        ∧ ((csv_read_one_field p).1 ≠ none →
            (csv_read_one_field p).2.z.getD (csv_read_one_field p).2.n 256 = 0))
    ∧ (∀ p : ImportCtx, bufInv p →
        bufInv (ascii_read_one_field p).2
        ∧ (ascii_read_one_field p).2.n ≤ (ascii_read_one_field p).2.nAlloc
        ∧ ((ascii_read_one_field p).1 ≠ none →
            (ascii_read_one_field p).2.z.getD (ascii_read_one_field p).2.n 256 = 0)) := by
  refine ⟨?_, ?_, ?_⟩
  · intro p c h
    unfold import_append_char
    rw [if_pos h]
    show p.nAlloc + p.nAlloc + 100 = 2 * p.nAlloc + 100
    omega
  · intro p h
    rcases hinp : p.input with _ | ⟨c, rest⟩
    · rw [csv_read_nil p hinp]
      refine ⟨⟨h.1, ?_⟩, ?_, ?_⟩
      · show (0 : Nat) < p.nAlloc ∨ ((0 : Nat) = 0 ∧ p.nAlloc = 0)
        omega
      · show (0 : Nat) ≤ p.nAlloc
        omega
      · intro hv
        exact absurd rfl hv
    · by_cases hs : c = -1 ∨ p.seenInterrupt = true
      · rw [csv_read_stop p c rest hinp hs]
        refine ⟨⟨h.1, ?_⟩, ?_, ?_⟩
        · show (0 : Nat) < p.nAlloc ∨ ((0 : Nat) = 0 ∧ p.nAlloc = 0)
          omega
        · show (0 : Nat) ≤ p.nAlloc
          omega
        · intro hv
          exact absurd rfl hv
      · rw [csv_read_go p c rest hinp hs]
        have hp1 : bufInv ({ p with n := 0, input := rest } : ImportCtx) := by
          refine ⟨h.1, ?_⟩
          show (0 : Nat) < p.nAlloc ∨ ((0 : Nat) = 0 ∧ p.nAlloc = 0)
          omega
        have hp2 : bufInv (if c = 34
            then csvQuotedGo p.nLine 0 0 rest { p with n := 0, input := rest }
            else csvUnquotedGo c rest { p with n := 0, input := rest }) := by
          split
          · exact quotedGo_bufInv rest _ 0 0 _ hp1
          · exact unquotedGo_bufInv rest c _ hp1
        revert hp2
        dsimp only
        generalize (if c = 34
            then csvQuotedGo p.nLine 0 0 rest { p with n := 0, input := rest }
            else csvUnquotedGo c rest { p with n := 0, input := rest }) = q
        intro hq
        exact read_tail_ok q hq
  · intro p h
    rcases hinp : p.input with _ | ⟨c, rest⟩
    · rw [ascii_read_nil p hinp]
      refine ⟨⟨h.1, ?_⟩, ?_, ?_⟩
      · show (0 : Nat) < p.nAlloc ∨ ((0 : Nat) = 0 ∧ p.nAlloc = 0)
        omega
      · show (0 : Nat) ≤ p.nAlloc
        omega
      · intro hv
        exact absurd rfl hv
    · by_cases hs : c = -1 ∨ p.seenInterrupt = true
      · rw [ascii_read_stop p c rest hinp hs]
        refine ⟨⟨h.1, ?_⟩, ?_, ?_⟩
        · show (0 : Nat) < p.nAlloc ∨ ((0 : Nat) = 0 ∧ p.nAlloc = 0)
          omega
        · show (0 : Nat) ≤ p.nAlloc
          omega
        · intro hv
          exact absurd rfl hv
      · rw [ascii_read_go p c rest hinp hs]
        have hp1 : bufInv ({ p with n := 0, input := rest } : ImportCtx) := by
          refine ⟨h.1, ?_⟩
          show (0 : Nat) < p.nAlloc ∨ ((0 : Nat) = 0 ∧ p.nAlloc = 0)
          omega
        have hp2 : bufInv (asciiGo c rest { p with n := 0, input := rest }) :=
          asciiGo_bufInv rest c _ hp1
        revert hp2
        dsimp only
        generalize asciiGo c rest { p with n := 0, input := rest } = q
        intro hq
        exact read_tail_ok q hq

theorem claim_C9_amended_witness :
    (import_append_char (initCtx []) 0).nAlloc = 2 * (initCtx []).nAlloc + 100
    ∧ bufInv (csv_read_one_field (allocCtx [97, 10])).2
    ∧ (csv_read_one_field (allocCtx [97, 10])).2.z.getD
        (csv_read_one_field (allocCtx [97, 10])).2.n 256 = 0
    ∧ bufInv (ascii_read_one_field (allocCtx [97, 10])).2 :=
  ⟨claim_C9_amended.1 (initCtx []) 0 (by decide),
   (claim_C9_amended.2.1 (allocCtx [97, 10]) (by decide)).1,
   (claim_C9_amended.2.1 (allocCtx [97, 10]) (by decide)).2.2 (by decide),
   (claim_C9_amended.2.2 (allocCtx [97, 10]) (by decide)).1⟩

/- ---------- C5 amended: which line each diagnostic references ---------- -/

/- The diagnostics emitted by sqlite_import itself (lines 401-403,
   413-415, 421-423), as opposed to the tokenizer's. -/
def isLoaderKind : DiagKind → Bool
  | .shortRow _ _ => true
  | .longRow _ _ => true
  | .insertFailed => true
  | .unescapedQuote => false
  | .unterminatedQuote => false

/- Attribution of one diagnostic relative to a baseline log and the
   current row's starting line sl: it predates the row, or it is a loader
   diagnostic pinned exactly to sl, or a tokenizer diagnostic at a line
   no earlier than sl. -/
def diagOk (base : List Diag) (sl : Int) (d : Diag) : Prop :=
  d ∈ base ∨ (isLoaderKind d.kind = true ∧ d.line = sl)
  ∨ (isLoaderKind d.kind = false ∧ sl ≤ d.line)

theorem diagOk_trans (l0 l1 : List Diag) (sl : Int) (h : ∀ d ∈ l1, diagOk l0 sl d) :
    ∀ d, diagOk l1 sl d → diagOk l0 sl d := by
  intro d hd
  rcases hd with hm | h2 | h3
  · exact h d hm
  · exact Or.inr (Or.inl h2)
  · exact Or.inr (Or.inr h3)

theorem quotedGo_nLine_mono : ∀ (inp : List Int) (sl pc ppc : Int) (p : ImportCtx),
    p.nLine ≤ (csvQuotedGo sl pc ppc inp p).nLine
  | [], sl, pc, ppc, p => by
      rw [csvQuotedGo_nil_eq]
      dsimp only
      have h2 : p.nLine ≤ (if (-1 : Int) = p.cRowSep
          then ({ p with nLine := p.nLine + 1 } : ImportCtx) else p).nLine := by
        split
        · show p.nLine ≤ p.nLine + 1
          omega
        · exact le_rfl
      revert h2
      generalize (if (-1 : Int) = p.cRowSep
          then ({ p with nLine := p.nLine + 1 } : ImportCtx) else p) = q
      intro hq
      split
      · exact hq
      · split
        · exact hq
        · exact hq
  | c :: rest, sl, pc, ppc, p => by
      rw [csvQuotedGo_cons_eq]
      dsimp only
      have h2 : p.nLine ≤ (if c = p.cRowSep
          then ({ p with input := rest, nLine := p.nLine + 1 } : ImportCtx)
          else { p with input := rest }).nLine := by
        split
        · show p.nLine ≤ p.nLine + 1
          omega
        · exact le_rfl
      revert h2
      generalize (if c = p.cRowSep
          then ({ p with input := rest, nLine := p.nLine + 1 } : ImportCtx)
          else { p with input := rest }) = q
      intro hq
      split
      · exact le_trans hq (quotedGo_nLine_mono rest sl 0 ppc q)
      · split
        · exact hq
        · have h3 : p.nLine ≤ (if pc = 34 ∧ c ≠ 13
              then addDiag q q.nLine .unescapedQuote else q).nLine := by
            split
            · exact hq
            · exact hq
          revert h3
          generalize (if pc = 34 ∧ c ≠ 13 then addDiag q q.nLine .unescapedQuote else q) = q3
          intro hq3
          split
          · exact hq3
          · have h4 := quotedGo_nLine_mono rest sl c pc (import_append_char q3 c)
            rw [app_nLine] at h4
            omega

theorem unquotedFinish_nLine_mono (c : Int) (p : ImportCtx) :
    p.nLine ≤ (csvUnquotedFinish c p).nLine := by
  unfold csvUnquotedFinish
  dsimp only
  split
  · split
    · show p.nLine ≤ p.nLine + 1
      omega
    · show p.nLine ≤ p.nLine + 1
      omega
  · exact le_rfl

theorem unquotedGo_nLine_mono : ∀ (inp : List Int) (c : Int) (p : ImportCtx),
    p.nLine ≤ (csvUnquotedGo c inp p).nLine
  | [], c, p => by
      show p.nLine ≤ (if c = -1 ∨ c = p.cColSep ∨ c = p.cRowSep then csvUnquotedFinish c p
        else csvUnquotedFinish (-1) (import_append_char p c)).nLine
      split
      · exact unquotedFinish_nLine_mono c p
      · have h := unquotedFinish_nLine_mono (-1) (import_append_char p c)
        rw [app_nLine] at h
        exact h
  | b :: rest, c, p => by
      show p.nLine ≤ (if c = -1 ∨ c = p.cColSep ∨ c = p.cRowSep then csvUnquotedFinish c p
        else csvUnquotedGo b rest (import_append_char { p with input := rest } c)).nLine
      split
      · exact unquotedFinish_nLine_mono c p
      · have h := unquotedGo_nLine_mono rest b (import_append_char { p with input := rest } c)
        rw [app_nLine] at h
        exact h

theorem asciiFinish_nLine_mono (c : Int) (p : ImportCtx) :
    p.nLine ≤ (asciiFinish c p).nLine := by
  unfold asciiFinish
  dsimp only
  split
  · show p.nLine ≤ p.nLine + 1
    omega
  · exact le_rfl

theorem asciiGo_nLine_mono : ∀ (inp : List Int) (c : Int) (p : ImportCtx),
    p.nLine ≤ (asciiGo c inp p).nLine
  | [], c, p => by
      show p.nLine ≤ (if c = -1 ∨ c = p.cColSep ∨ c = p.cRowSep then asciiFinish c p
        else asciiFinish (-1) (import_append_char p c)).nLine
      split
      · exact asciiFinish_nLine_mono c p
      · have h := asciiFinish_nLine_mono (-1) (import_append_char p c)
        rw [app_nLine] at h
        exact h
  | b :: rest, c, p => by
      show p.nLine ≤ (if c = -1 ∨ c = p.cColSep ∨ c = p.cRowSep then asciiFinish c p
        else asciiGo b rest (import_append_char { p with input := rest } c)).nLine
      split
      · exact asciiFinish_nLine_mono c p
      · have h := asciiGo_nLine_mono rest b (import_append_char { p with input := rest } c)
        rw [app_nLine] at h
        exact h

theorem csv_read_nLine_mono (p : ImportCtx) : p.nLine ≤ (csv_read_one_field p).2.nLine := by
  rcases hinp : p.input with _ | ⟨c, rest⟩
  · rw [csv_read_nil p hinp]
  · by_cases hs : c = -1 ∨ p.seenInterrupt = true
    · rw [csv_read_stop p c rest hinp hs]
    · rw [csv_read_go p c rest hinp hs]
      dsimp only
      have hq : p.nLine ≤ (if c = 34
          then csvQuotedGo p.nLine 0 0 rest { p with n := 0, input := rest }
          else csvUnquotedGo c rest { p with n := 0, input := rest }).nLine := by
        split
        · exact quotedGo_nLine_mono rest p.nLine 0 0 { p with n := 0, input := rest }
        · exact unquotedGo_nLine_mono rest c { p with n := 0, input := rest }
      revert hq
      generalize (if c = 34
          then csvQuotedGo p.nLine 0 0 rest { p with n := 0, input := rest }
          else csvUnquotedGo c rest { p with n := 0, input := rest }) = q
      intro hq
      split
      · exact hq
      · exact hq

theorem ascii_read_nLine_mono (p : ImportCtx) :
    p.nLine ≤ (ascii_read_one_field p).2.nLine := by
  rcases hinp : p.input with _ | ⟨c, rest⟩
  · rw [ascii_read_nil p hinp]
  · by_cases hs : c = -1 ∨ p.seenInterrupt = true
    · rw [ascii_read_stop p c rest hinp hs]
    · rw [ascii_read_go p c rest hinp hs]
      dsimp only
      have hq : p.nLine ≤ (asciiGo c rest { p with n := 0, input := rest }).nLine :=
        asciiGo_nLine_mono rest c { p with n := 0, input := rest }
      revert hq
      generalize asciiGo c rest { p with n := 0, input := rest } = q
      intro hq
      split
      · exact hq
      · exact hq

theorem readOneField_nLine_mono (fn : ReadFn) (p : ImportCtx) :
    p.nLine ≤ (readOneField fn p).2.nLine := by
  cases fn
  · exact csv_read_nLine_mono p
  · exact ascii_read_nLine_mono p

/- Every diagnostic the quoted loop adds is either the unterminated-field
   one pinned to the captured startLine (lines 183-184) or the
   unescaped-quote one stamped with the current line counter (line 176),
   never below startLine. -/
theorem quotedGo_qDiagOk : ∀ (inp : List Int) (sl pc ppc : Int) (p : ImportCtx),
    sl ≤ p.nLine →
    ∀ d ∈ (csvQuotedGo sl pc ppc inp p).diags,
      d ∈ p.diags ∨ (d.kind = .unterminatedQuote ∧ d.line = sl)
      ∨ (d.kind = .unescapedQuote ∧ sl ≤ d.line)
  | [], sl, pc, ppc, p, hsl => by
      rw [csvQuotedGo_nil_eq]
      dsimp only
      have h1 : (if (-1 : Int) = p.cRowSep then ({ p with nLine := p.nLine + 1 } : ImportCtx)
          else p).diags = p.diags := by split <;> rfl
      have h2 : sl ≤ (if (-1 : Int) = p.cRowSep
          then ({ p with nLine := p.nLine + 1 } : ImportCtx) else p).nLine := by
        split
        · show sl ≤ p.nLine + 1
          omega
        · exact hsl
      revert h1 h2
      generalize (if (-1 : Int) = p.cRowSep then ({ p with nLine := p.nLine + 1 } : ImportCtx)
          else p) = q
      intro h1 h2
      split
      · intro d hd
        have hd' : d ∈ q.diags := hd
        exact Or.inl (h1 ▸ hd')
      · intro d hd
        have hd' : d ∈ (if pc = 34 ∧ ((-1 : Int) ≠ 13)
            then addDiag q q.nLine .unescapedQuote else q).diags
            ++ [⟨sl, DiagKind.unterminatedQuote⟩] := hd
        rcases List.mem_append.mp hd' with hd2 | hd2
        · split at hd2
          · have hd3 : d ∈ q.diags ++ [⟨q.nLine, DiagKind.unescapedQuote⟩] := hd2
            rcases List.mem_append.mp hd3 with hd4 | hd4
            · exact Or.inl (h1 ▸ hd4)
            · have hd5 := List.mem_singleton.mp hd4
              subst hd5
              exact Or.inr (Or.inr ⟨rfl, h2⟩)
          · have hd3 : d ∈ q.diags := hd2
            exact Or.inl (h1 ▸ hd3)
        · have hd3 := List.mem_singleton.mp hd2
          subst hd3
          exact Or.inr (Or.inl ⟨rfl, rfl⟩)
  | c :: rest, sl, pc, ppc, p, hsl => by
      rw [csvQuotedGo_cons_eq]
      dsimp only
      have h1 : (if c = p.cRowSep
          then ({ p with input := rest, nLine := p.nLine + 1 } : ImportCtx)
          else { p with input := rest }).diags = p.diags := by split <;> rfl
      have h2 : sl ≤ (if c = p.cRowSep
          then ({ p with input := rest, nLine := p.nLine + 1 } : ImportCtx)
          else { p with input := rest }).nLine := by
        split
        · show sl ≤ p.nLine + 1
          omega
        · exact hsl
      revert h1 h2
      generalize (if c = p.cRowSep
          then ({ p with input := rest, nLine := p.nLine + 1 } : ImportCtx)
          else { p with input := rest }) = q
      intro h1 h2
      split
      · intro d hd
        rcases quotedGo_qDiagOk rest sl 0 ppc q h2 d hd with hm | hu | he
        · exact Or.inl (h1 ▸ hm)
        · exact Or.inr (Or.inl hu)
        · exact Or.inr (Or.inr he)
      · split
        · intro d hd
          have hd' : d ∈ q.diags := hd
          exact Or.inl (h1 ▸ hd')
        · have h3 : ∀ d ∈ (if pc = 34 ∧ c ≠ 13 then addDiag q q.nLine .unescapedQuote
              else q).diags,
              d ∈ p.diags ∨ (d.kind = DiagKind.unescapedQuote ∧ sl ≤ d.line) := by
            intro d hd
            split at hd
            · have hd2 : d ∈ q.diags ++ [⟨q.nLine, DiagKind.unescapedQuote⟩] := hd
              rcases List.mem_append.mp hd2 with hd3 | hd3
              · exact Or.inl (h1 ▸ hd3)
              · have hd4 := List.mem_singleton.mp hd3
                subst hd4
                exact Or.inr ⟨rfl, h2⟩
            · exact Or.inl (h1 ▸ hd)
          have h4 : sl ≤ (if pc = 34 ∧ c ≠ 13 then addDiag q q.nLine .unescapedQuote
              else q).nLine := by
            split
            · exact h2
            · exact h2
          revert h3 h4
          generalize (if pc = 34 ∧ c ≠ 13 then addDiag q q.nLine .unescapedQuote else q) = q3
          intro h3 h4
          split
          · intro d hd
            have hd' : d ∈ q3.diags ++ [⟨sl, DiagKind.unterminatedQuote⟩] := hd
            rcases List.mem_append.mp hd' with hd2 | hd2
            · rcases h3 d hd2 with hm | hu
              · exact Or.inl hm
              · exact Or.inr (Or.inr hu)
            · have hd3 := List.mem_singleton.mp hd2
              subst hd3
              exact Or.inr (Or.inl ⟨rfl, rfl⟩)
          · intro d hd
            rcases quotedGo_qDiagOk rest sl c pc (import_append_char q3 c)
                (by rw [app_nLine]; exact h4) d hd with hm | hu | he
            · rw [app_diags] at hm
              rcases h3 d hm with hm2 | hu2
              · exact Or.inl hm2
              · exact Or.inr (Or.inr hu2)
            · exact Or.inr (Or.inl hu)
            · exact Or.inr (Or.inr he)

theorem unquotedFinish_diags (c : Int) (p : ImportCtx) :
    (csvUnquotedFinish c p).diags = p.diags := by
  unfold csvUnquotedFinish
  dsimp only
  split
  · split <;> rfl
  · rfl

theorem unquotedGo_diags : ∀ (inp : List Int) (c : Int) (p : ImportCtx),
    (csvUnquotedGo c inp p).diags = p.diags
  | [], c, p => by
      show (if c = -1 ∨ c = p.cColSep ∨ c = p.cRowSep then csvUnquotedFinish c p
        else csvUnquotedFinish (-1) (import_append_char p c)).diags = p.diags
      split
      · exact unquotedFinish_diags c p
      · rw [unquotedFinish_diags, app_diags]
  | b :: rest, c, p => by
      show (if c = -1 ∨ c = p.cColSep ∨ c = p.cRowSep then csvUnquotedFinish c p
        else csvUnquotedGo b rest (import_append_char { p with input := rest } c)).diags
        = p.diags
      split
      · exact unquotedFinish_diags c p
      · rw [unquotedGo_diags rest b _, app_diags]

theorem asciiFinish_diags (c : Int) (p : ImportCtx) :
    (asciiFinish c p).diags = p.diags := by
  unfold asciiFinish
  dsimp only
  split <;> rfl

theorem asciiGo_diags : ∀ (inp : List Int) (c : Int) (p : ImportCtx),
    (asciiGo c inp p).diags = p.diags
  | [], c, p => by
      show (if c = -1 ∨ c = p.cColSep ∨ c = p.cRowSep then asciiFinish c p
        else asciiFinish (-1) (import_append_char p c)).diags = p.diags
      split
      · exact asciiFinish_diags c p
      · rw [asciiFinish_diags, app_diags]
  | b :: rest, c, p => by
      show (if c = -1 ∨ c = p.cColSep ∨ c = p.cRowSep then asciiFinish c p
        else asciiGo b rest (import_append_char { p with input := rest } c)).diags = p.diags
      split
      · exact asciiFinish_diags c p
      · rw [asciiGo_diags rest b _, app_diags]

/- Diagnostic attribution of a whole csv_read_one_field call: anything
   new is the unterminated-field diagnostic at exactly the entry line, or
   the unescaped-quote diagnostic at the current (>= entry) line. -/
theorem csv_read_diags (p : ImportCtx) :
    ∀ d ∈ (csv_read_one_field p).2.diags,
      d ∈ p.diags ∨ (d.kind = .unterminatedQuote ∧ d.line = p.nLine)
      ∨ (d.kind = .unescapedQuote ∧ p.nLine ≤ d.line) := by
  rcases hinp : p.input with _ | ⟨c, rest⟩
  · rw [csv_read_nil p hinp]
    intro d hd
    exact Or.inl hd
  · by_cases hs : c = -1 ∨ p.seenInterrupt = true
    · rw [csv_read_stop p c rest hinp hs]
      intro d hd
      exact Or.inl hd
    · rw [csv_read_go p c rest hinp hs]
      dsimp only
      have hq : ∀ d ∈ (if c = 34
          then csvQuotedGo p.nLine 0 0 rest { p with n := 0, input := rest }
          else csvUnquotedGo c rest { p with n := 0, input := rest }).diags,
          d ∈ p.diags ∨ (d.kind = DiagKind.unterminatedQuote ∧ d.line = p.nLine)
          ∨ (d.kind = DiagKind.unescapedQuote ∧ p.nLine ≤ d.line) := by
        split
        · intro d hd
          exact quotedGo_qDiagOk rest p.nLine 0 0 { p with n := 0, input := rest }
            le_rfl d hd
        · intro d hd
          rw [unquotedGo_diags] at hd
          exact Or.inl hd
      revert hq
      generalize (if c = 34
          then csvQuotedGo p.nLine 0 0 rest { p with n := 0, input := rest }
          else csvUnquotedGo c rest { p with n := 0, input := rest }) = q
      intro hq
      intro d hd
      apply hq
      split at hd
      · exact hd
      · exact hd

theorem ascii_read_diags (p : ImportCtx) :
    (ascii_read_one_field p).2.diags = p.diags := by
  rcases hinp : p.input with _ | ⟨c, rest⟩
  · rw [ascii_read_nil p hinp]
  · by_cases hs : c = -1 ∨ p.seenInterrupt = true
    · rw [ascii_read_stop p c rest hinp hs]
    · rw [ascii_read_go p c rest hinp hs]
      dsimp only
      have hq : (asciiGo c rest { p with n := 0, input := rest }).diags = p.diags :=
        asciiGo_diags rest c { p with n := 0, input := rest }
      revert hq
      generalize asciiGo c rest { p with n := 0, input := rest } = q
      intro hq
      split
      · exact hq
      · exact hq

theorem readOneField_diagOk (fn : ReadFn) (p : ImportCtx) (sl : Int) (hsl : sl ≤ p.nLine) :
    ∀ d ∈ (readOneField fn p).2.diags, diagOk p.diags sl d := by
  cases fn
  · intro d hd
    rcases csv_read_diags p d hd with hm | hu | he
    · exact Or.inl hm
    · exact Or.inr (Or.inr ⟨by rw [hu.1]; rfl, by rw [hu.2]; exact hsl⟩)
    · exact Or.inr (Or.inr ⟨by rw [he.1]; rfl, le_trans hsl he.2⟩)
  · intro d hd
    have hd' : d ∈ (ascii_read_one_field p).2.diags := hd
    rw [ascii_read_diags] at hd'
    exact Or.inl hd'

theorem forPhaseGo_step_any (fn : ReadFn) (mode nCol : Nat) (sl : Int) (rem i : Nat)
    (st : LoadState) :
    forPhaseGo fn mode nCol sl (rem + 1) i st
      = (if (readOneField fn st.ctx).1 = none ∧ i = 0 then
           ({ st with ctx := (readOneField fn st.ctx).2 }, i)
         else if mode = MODE_Ascii
             ∧ ((readOneField fn st.ctx).1 = none ∨ (readOneField fn st.ctx).1 = some [])
             ∧ i = 0 then
           ({ st with ctx := (readOneField fn st.ctx).2 }, i)
         else if i < nCol - 1
             ∧ (readOneField fn st.ctx).2.cTerm ≠ (readOneField fn st.ctx).2.cColSep then
           ({ st with
              ctx := addDiag (readOneField fn st.ctx).2 sl (.shortRow nCol (i + 1)),
              stmt := bindNullGo (i + 2) (nCol + 1 - (i + 2))
                (st.stmt.set i (readOneField fn st.ctx).1) }, nCol + 2)
         else forPhaseGo fn mode nCol sl rem (i + 1)
           { st with
             ctx := (readOneField fn st.ctx).2,
             stmt := st.stmt.set i (readOneField fn st.ctx).1 }) := rfl

theorem drainGo_step_any (fn : ReadFn) (fuel : Nat) (ctx : ImportCtx) (i : Nat) :
    drainGo fn (fuel + 1) ctx i
      = (if (readOneField fn ctx).2.cTerm = (readOneField fn ctx).2.cColSep
         then drainGo fn fuel (readOneField fn ctx).2 (i + 1)
         else ((readOneField fn ctx).2, i + 1)) := rfl

/- Diagnostics across the per-row for loop: loader diagnostics are pinned
   to the startLine passed in; tokenizer diagnostics never precede it. -/
theorem forPhaseGo_diagOk (fn : ReadFn) (mode nCol : Nat) (sl : Int) :
    ∀ (rem i : Nat) (st : LoadState), sl ≤ st.ctx.nLine →
    (∀ d ∈ (forPhaseGo fn mode nCol sl rem i st).1.ctx.diags, diagOk st.ctx.diags sl d)
    ∧ sl ≤ (forPhaseGo fn mode nCol sl rem i st).1.ctx.nLine
  | 0, i, st, hsl => ⟨fun _ hd => Or.inl hd, hsl⟩
  | rem + 1, i, st, hsl => by
      rw [forPhaseGo_step_any]
      have hread := readOneField_diagOk fn st.ctx sl hsl
      have hmono : sl ≤ (readOneField fn st.ctx).2.nLine :=
        le_trans hsl (readOneField_nLine_mono fn st.ctx)
      split
      · exact ⟨fun d hd => hread d hd, hmono⟩
      · split
        · exact ⟨fun d hd => hread d hd, hmono⟩
        · split
          · constructor
            · intro d hd
              have hd' : d ∈ (readOneField fn st.ctx).2.diags
                  ++ [⟨sl, DiagKind.shortRow nCol (i + 1)⟩] := hd
              rcases List.mem_append.mp hd' with hd2 | hd2
              · exact hread d hd2
              · have hd3 := List.mem_singleton.mp hd2
                subst hd3
                exact Or.inr (Or.inl ⟨rfl, rfl⟩)
            · exact hmono
          · have ih := forPhaseGo_diagOk fn mode nCol sl rem (i + 1)
              { st with
                ctx := (readOneField fn st.ctx).2,
                stmt := st.stmt.set i (readOneField fn st.ctx).1 } hmono
            exact ⟨fun d hd => diagOk_trans st.ctx.diags (readOneField fn st.ctx).2.diags sl
              hread d (ih.1 d hd), ih.2⟩

theorem drainGo_diagOk (fn : ReadFn) (sl : Int) :
    ∀ (fuel : Nat) (ctx : ImportCtx) (i : Nat), sl ≤ ctx.nLine →
    (∀ d ∈ (drainGo fn fuel ctx i).1.diags, diagOk ctx.diags sl d)
    ∧ sl ≤ (drainGo fn fuel ctx i).1.nLine
  | 0, ctx, i, hsl => ⟨fun _ hd => Or.inl hd, hsl⟩
  | fuel + 1, ctx, i, hsl => by
      rw [drainGo_step_any]
      have hread := readOneField_diagOk fn ctx sl hsl
      have hmono : sl ≤ (readOneField fn ctx).2.nLine :=
        le_trans hsl (readOneField_nLine_mono fn ctx)
      split
      · have ih := drainGo_diagOk fn sl fuel (readOneField fn ctx).2 (i + 1) hmono
        exact ⟨fun d hd => diagOk_trans ctx.diags (readOneField fn ctx).2.diags sl hread d
          (ih.1 d hd), ih.2⟩
      · exact ⟨fun d hd => hread d hd, hmono⟩

/- The insert phase of one row iteration, lines 417-424. -/
theorem insertPhase_diagOk (sl : Int) (base : List Diag) (execOk : Nat → Bool) (nCol : Nat)
    (st2 : LoadState) (i2 : Nat)
    (hX : ∀ d ∈ st2.ctx.diags, diagOk base sl d) :
    ∀ d ∈ (if i2 ≥ nCol then
        (let st3 := { st2 with inserted := st2.inserted ++ [st2.stmt] }
         if execOk st2.inserted.length then (st3, i2)
         else ({ st3 with ctx := addDiag st3.ctx sl .insertFailed }, i2))
      else (st2, i2)).1.ctx.diags, diagOk base sl d := by
  split
  · dsimp only
    split
    · exact hX
    · intro d hd
      have hd' : d ∈ st2.ctx.diags ++ [⟨sl, DiagKind.insertFailed⟩] := hd
      rcases List.mem_append.mp hd' with h | h
      · exact hX d h
      · have h2 := List.mem_singleton.mp h
        subst h2
        exact Or.inr (Or.inl ⟨rfl, rfl⟩)
  · exact hX

theorem processOneRow_diagOk (fn : ReadFn) (mode nCol : Nat) (execOk : Nat → Bool)
    (st : LoadState) :
    ∀ d ∈ (processOneRow fn mode nCol execOk st).1.ctx.diags,
      diagOk st.ctx.diags st.ctx.nLine d := by
  unfold processOneRow drainPhase
  dsimp only
  have hfp := forPhaseGo_diagOk fn mode nCol st.ctx.nLine nCol 0 st le_rfl
  revert hfp
  generalize forPhaseGo fn mode nCol st.ctx.nLine nCol 0 st = FP
  intro hfp
  obtain ⟨h1, h2⟩ := hfp
  split
  · have hdr := drainGo_diagOk fn st.ctx.nLine (FP.1.ctx.input.length + 1) FP.1.ctx FP.2 h2
    revert hdr
    generalize drainGo fn (FP.1.ctx.input.length + 1) FP.1.ctx FP.2 = DR
    intro hdr
    obtain ⟨h3, _⟩ := hdr
    have hX : ∀ d ∈ ({ FP.1 with
        ctx := addDiag DR.1 st.ctx.nLine (.longRow nCol DR.2) } : LoadState).ctx.diags,
        diagOk st.ctx.diags st.ctx.nLine d := by
      intro d hd
      have hd' : d ∈ DR.1.diags ++ [⟨st.ctx.nLine, DiagKind.longRow nCol DR.2⟩] := hd
      rcases List.mem_append.mp hd' with hd2 | hd2
      · exact diagOk_trans st.ctx.diags FP.1.ctx.diags st.ctx.nLine h1 d (h3 d hd2)
      · have hd3 := List.mem_singleton.mp hd2
        subst hd3
        exact Or.inr (Or.inl ⟨rfl, rfl⟩)
    exact insertPhase_diagOk st.ctx.nLine st.ctx.diags execOk nCol _ DR.2 hX
  · exact insertPhase_diagOk st.ctx.nLine st.ctx.diags execOk nCol FP.1 FP.2 h1

/-- C5 (amended): the loader's short-row, long-row and insert-failure
diagnostics reference the row's starting line exactly, and the
tokenizer's unterminated-quoted-field diagnostic references the starting
line of the field being read; the unescaped-quote diagnostic however
carries the current line number at the point of detection, which is only
bounded below by the starting line and exceeds it when a quoted field
spans lines. -/
theorem claim_C5_amended :
    (∀ (p : ImportCtx), ∀ d ∈ (csv_read_one_field p).2.diags,
        d ∈ p.diags ∨ (d.kind = .unterminatedQuote ∧ d.line = p.nLine)
        ∨ (d.kind = .unescapedQuote ∧ p.nLine ≤ d.line))
    ∧ (∀ (fn : ReadFn) (mode nCol : Nat) (execOk : Nat → Bool) (st : LoadState),
        ∀ d ∈ (processOneRow fn mode nCol execOk st).1.ctx.diags,
          d ∈ st.ctx.diags
          ∨ (isLoaderKind d.kind = true ∧ d.line = st.ctx.nLine)
          ∨ (isLoaderKind d.kind = false ∧ st.ctx.nLine ≤ d.line)) :=
  ⟨csv_read_diags,
   fun fn mode nCol execOk st => processOneRow_diagOk fn mode nCol execOk st⟩

theorem claim_C5_amended_witness :
    ((⟨1, DiagKind.unterminatedQuote⟩ : Diag) ∈ (allocCtx [34, 97]).diags
      ∨ ((⟨1, DiagKind.unterminatedQuote⟩ : Diag).kind = .unterminatedQuote
          ∧ (⟨1, DiagKind.unterminatedQuote⟩ : Diag).line = (allocCtx [34, 97]).nLine)
      ∨ ((⟨1, DiagKind.unterminatedQuote⟩ : Diag).kind = .unescapedQuote
          ∧ (allocCtx [34, 97]).nLine ≤ (⟨1, DiagKind.unterminatedQuote⟩ : Diag).line))
    ∧ ((⟨1, DiagKind.shortRow 2 1⟩ : Diag)
          ∈ ({ ctx := allocCtx [49, 10], stmt := [none, none], inserted := [] } :
              LoadState).ctx.diags
      ∨ (isLoaderKind (⟨1, DiagKind.shortRow 2 1⟩ : Diag).kind = true
          ∧ (⟨1, DiagKind.shortRow 2 1⟩ : Diag).line
            = ({ ctx := allocCtx [49, 10], stmt := [none, none], inserted := [] } :
                LoadState).ctx.nLine)
      ∨ (isLoaderKind (⟨1, DiagKind.shortRow 2 1⟩ : Diag).kind = false
          ∧ ({ ctx := allocCtx [49, 10], stmt := [none, none], inserted := [] } :
              LoadState).ctx.nLine ≤ (⟨1, DiagKind.shortRow 2 1⟩ : Diag).line)) :=
  ⟨claim_C5_amended.1 (allocCtx [34, 97]) ⟨1, DiagKind.unterminatedQuote⟩ (by decide),
   claim_C5_amended.2 .csv MODE_Csv 2 (fun _ => true)
     { ctx := allocCtx [49, 10], stmt := [none, none], inserted := [] }
     ⟨1, DiagKind.shortRow 2 1⟩ (by decide)⟩
